import Mathlib

/-!
Packet analyzer / router simulation: a verification development.

Shallow embedding of `src/main.cpp` and proofs about it.

* `Packet`, `comp` and the work queue: `std::priority_queue` over
  `std::vector`, i.e. `push_back` + `std::push_heap`, `std::pop_heap` +
  `pop_back`, `front`, with the heap algorithms written out.
* The routing table (`std::unordered_map<std::string, std::string>`) as an
  association list with `find`, the reading `operator[]` (which inserts a
  missing key) and the assigning `operator[]`.
* `parsePacket`, `routePacket`, `updateRoutingTable` as functions on the
  global variables of the program.
* The threads of `main` as a step function on a state with one program
  counter per thread and the owner of `packetQueueMutex`.  A schedule is the
  list of the threads that take the next step, so "every interleaving" is
  "every schedule".

What the model fixes.  Each step is one access to shared state, so that
nothing is atomic that no lock makes atomic: `routingTable[destIP] = router`
is `operator[]` and then the assignment; the output statement of
`updateRoutingTable` is five insertions per stream; an insertion into
`std::cout` is one step, an insertion into the shared `logFile` is the read
of the put position and the store.  `sleep_for` and `detach` are not steps,
so no timing is assumed; once `main` has returned no thread takes a step.
The number of workers (2 in the source), the list of packets enqueued and
whether the log file could be opened are parameters of the initial state.
-/

set_option autoImplicit false

namespace PacketSim

/-! ## Data model -/

/-- The `Packet` struct (main.cpp:14-20). -/
structure Packet where
  sourceIP : String
  destIP : String
  protocol : String
  size : Int
  priority : Int
  deriving DecidableEq, Repr, Inhabited

/-- The comparator given to the priority queue (main.cpp:25-27):
`a.priority < b.priority`. -/
def comp (a b : Packet) : Bool := decide (a.priority < b.priority)

/-! ## The work queue

`std::priority_queue<Packet, std::vector<Packet>, cmp>` keeps its elements in
a vector `c` arranged as a binary max-heap with respect to `comp`:
`push(x)` is `c.push_back(x); std::push_heap(c.begin(), c.end(), comp)`,
`pop()` is `std::pop_heap(c.begin(), c.end(), comp); c.pop_back()`,
`top()` is `c.front()` and `empty()` is `c.empty()`.
The heap algorithms below follow the usual library implementation (sift the
hole up for `push_heap`; for `pop_heap` move the hole down to a leaf along
the larger children and then sift the saved value up from there).  Loops are
given fuel equal to the length of the vector, which bounds their iterations. -/

/-- The vector underlying the priority queue. -/
abbrev PQueue := List Packet

/-- Element access `c[i]` of the vector. -/
def at_ (v : PQueue) (i : Nat) : Packet := v.getD i default

/-- Loop of `std::__push_heap(first, holeIndex, topIndex, value, comp)`:
while the hole is below `topIndex` and its parent compares less than `value`,
move the parent down into the hole; finally store `value` in the hole. -/
def pushHeapLoop : Nat → PQueue → Nat → Nat → Packet → PQueue
  | 0, v, holeIndex, _, value => v.set holeIndex value
  | fuel + 1, v, holeIndex, topIndex, value =>
    let parent := (holeIndex - 1) / 2
    if holeIndex > topIndex ∧ comp (at_ v parent) value = true then
      pushHeapLoop fuel (v.set holeIndex (at_ v parent)) parent topIndex value
    else
      v.set holeIndex value

/-- The function `std::push_heap(first, last, comp)`: the last element is the
new value, sifted up from the last position. -/
def pushHeap (v : PQueue) : PQueue :=
  pushHeapLoop v.length v (v.length - 1) 0 (at_ v (v.length - 1))

/-- First loop of `std::__adjust_heap`: while the hole has two children inside
`[0, len)`, move the larger child up into the hole.  Returns the vector and
the final hole index (`holeIndex = secondChild` at every loop head). -/
def adjustHeapLoop : Nat → PQueue → Nat → Nat → PQueue × Nat
  | 0, v, holeIndex, _ => (v, holeIndex)
  | fuel + 1, v, holeIndex, len =>
    if holeIndex < (len - 1) / 2 then
      let secondChild := 2 * (holeIndex + 1)
      let secondChild :=
        if comp (at_ v secondChild) (at_ v (secondChild - 1)) = true then secondChild - 1
        else secondChild
      adjustHeapLoop fuel (v.set holeIndex (at_ v secondChild)) secondChild len
    else
      (v, holeIndex)

/-- The function `std::__adjust_heap(first, holeIndex, len, value, comp)`:
after the loop, when `len` is even and the hole is the parent of the last
element, that only child moves up; then `value` is sifted up from the hole.
The indices of the source are signed, so for `len = 0` the test
`secondChild == (len - 2) / 2` compares with `-1` and fails; the conjunct
`2 ≤ len` renders this with natural numbers. -/
def adjustHeap (v : PQueue) (holeIndex len : Nat) (value : Packet) : PQueue :=
  let topIndex := holeIndex
  let r := adjustHeapLoop len v holeIndex len
  let v1 := r.1
  let secondChild := r.2
  if len % 2 = 0 ∧ 2 ≤ len ∧ secondChild = (len - 2) / 2 then
    let secondChild := 2 * (secondChild + 1)
    let v2 := v1.set r.2 (at_ v1 (secondChild - 1))
    pushHeapLoop len v2 (secondChild - 1) topIndex value
  else
    pushHeapLoop len v1 secondChild topIndex value

/-- The function `std::pop_heap(first, last, comp)`: when there is more than
one element, save the last one, store the first in the last position and
re-establish the heap on `[0, last - 1)` around the saved value. -/
def popHeap (v : PQueue) : PQueue :=
  if v.length > 1 then
    let last := v.length - 1
    let value := at_ v last
    adjustHeap (v.set last (at_ v 0)) 0 last value
  else v

/-- The call `packetQueue.push(packet)` (main.cpp:122). -/
def push (q : PQueue) (p : Packet) : PQueue := pushHeap (q ++ [p])

/-- The call `packetQueue.pop()` (main.cpp:78). -/
def pop (q : PQueue) : PQueue := (popHeap q).dropLast

/-- The call `packetQueue.top()` (main.cpp:77), `c.front()`; callers test
`empty()` first. -/
def top (q : PQueue) : Packet := at_ q 0

/-- The call `packetQueue.empty()` (main.cpp:76). -/
def empty (q : PQueue) : Bool := q.isEmpty

/-- The dequeue of `processPackets` (main.cpp:76-78): when the queue is not
empty, copy `top()` and `pop()`; otherwise report that it is empty. -/
def tryDequeue (q : PQueue) : Option (Packet × PQueue) :=
  if !empty q then some (top q, pop q) else none

/-- The sample packets of `main` (main.cpp:112-117). -/
def samplePackets : List Packet :=
  [ ⟨"192.168.1.100", "192.168.1.1", "TCP", 500, 2⟩,
    ⟨"192.168.1.101", "10.0.0.1", "UDP", 300, 3⟩,
    ⟨"10.0.0.2", "192.168.1.2", "TCP", 800, 1⟩,
    ⟨"192.168.1.200", "10.0.0.5", "ICMP", 100, 5⟩ ]

/-- The enqueue loop of `main` (main.cpp:120-123), from the empty queue. -/
def pushAll (pkts : List Packet) : PQueue := pkts.foldl push []

/-- Repeated `tryDequeue` until the queue reports empty; the packets in the
order they are returned.  `fuel` bounds the number of dequeues. -/
def drain : Nat → PQueue → List Packet
  | 0, _ => []
  | fuel + 1, q =>
    match tryDequeue q with
    | some (p, q') => p :: drain fuel q'
    | none => []

/-- An operation on the work queue: `packetQueue.push(p)` (main.cpp:122) or
the guarded dequeue of `processPackets` (main.cpp:76-78). -/
inductive QOp where
  | push (p : Packet)
  | dequeue
  deriving DecidableEq, Repr

/-- Effect of one operation on the queue. -/
def applyOp (q : PQueue) : QOp → PQueue
  | .push p => push q p
  | .dequeue =>
    match tryDequeue q with
    | some (_, q') => q'
    | none => q

/-- The queue after a sequence of operations, starting from the empty
queue. -/
def runOps (ops : List QOp) : PQueue := ops.foldl applyOp []

/-! ### Heap predicates -/

/-- Priority of the element at index `i`. -/
def prioAt (v : PQueue) (i : Nat) : Int := (at_ v i).priority

/-- The range `[0, len)` of `v` is a max-heap with respect to `comp`: no
element compares greater than its parent (the element at `(i - 1) / 2`). -/
def IsHeap (v : PQueue) (len : Nat) : Prop :=
  ∀ i, 0 < i → i < len → prioAt v i ≤ prioAt v ((i - 1) / 2)

/-- The queue invariant: the whole vector is a max-heap. -/
def HeapInv (q : PQueue) : Prop := IsHeap q q.length


/-! ## The routing table

`std::unordered_map<std::string, std::string>` as an association list with at
most the first entry of a key visible.  Three accesses occur in the program:
`find(k)` (main.cpp:59), reading `operator[]` (main.cpp:60), which inserts a
default-constructed (empty) value when the key is absent, and assigning
through `operator[]` (main.cpp:98). -/

/-- The routing table. -/
abbrev RoutingTable := List (String × String)

/-- The lookup `routingTable.find(k)`: the mapped value, or `none` for
`end()`. -/
def find : RoutingTable → String → Option String
  | [], _ => none
  | (k', v) :: t, k => if k' = k then some v else find t k

/-- The assignment `routingTable[k] = v`: overwrite the value of `k`, or
insert the pair when `k` is absent. -/
def assign : RoutingTable → String → String → RoutingTable
  | [], k, v => [(k, v)]
  | (k', v') :: t, k, v => if k' = k then (k', v) :: t else (k', v') :: assign t k v

/-- The read `routingTable[k]`: the mapped value and the table afterwards;
an absent key is first inserted with the empty string. -/
def index (t : RoutingTable) (k : String) : String × RoutingTable :=
  match find t k with
  | some v => (v, t)
  | none => ("", assign t k "")

/-- The initial routing table (main.cpp:28-33). -/
def seedTable : RoutingTable :=
  [("192.168.1.1", "Router A"), ("192.168.1.2", "Router B"),
   ("10.0.0.1", "Router C"), ("10.0.0.2", "Router D")]

/-! ## Global variables and the three logging functions -/

/-- The global variables of the program (main.cpp:23-34) other than the
mutex: the queue, the routing table, the text written so far to `std::cout`
and to `logFile` (one entry per output statement reaching the stream), and
whether `logFile` is open (the constructor at main.cpp:34 opened it and
`close()` has not been called).  A write to a stream that is not open fails
and leaves the file unchanged. -/
structure Globals where
  packetQueue : PQueue
  routingTable : RoutingTable
  cout : List String
  logFile : List String
  logOpen : Bool
  deriving DecidableEq, Repr

/-- Output of one string to `std::cout`. -/
def writeCout (g : Globals) (s : String) : Globals :=
  { g with cout := g.cout ++ [s] }

/-- Output of one string to `logFile`. -/
def writeLog (g : Globals) (s : String) : Globals :=
  if g.logOpen then { g with logFile := g.logFile ++ [s] } else g

/-- The insertion `logFile << s` as the stream buffer does it, in two
parts: the put position is read (the number of entries, `logFile.length`),
and then `s` is stored at the position read and the position set behind it.
This is the second part, for a position `pos` read earlier: entries stored in
between by another thread are overwritten.  With `pos` the current position
it is `writeLog`. -/
def storeLog (g : Globals) (pos : Nat) (s : String) : Globals :=
  if g.logOpen then { g with logFile := g.logFile.take pos ++ [s] } else g

/-- The contents of `logStream` at the end of `parsePacket`
(main.cpp:41-47). -/
def parseRecord (p : Packet) : String :=
  "parsing packet:\n"
    ++ "source ip: " ++ p.sourceIP ++ "\n"
    ++ "destination ip: " ++ p.destIP ++ "\n"
    ++ "protocol: " ++ p.protocol ++ "\n"
    ++ "size: " ++ toString p.size ++ " bytes\n"
    ++ "priority: " ++ toString p.priority ++ "\n"

/-- The function `parsePacket` (main.cpp:40-50). -/
def parsePacket (p : Packet) (g : Globals) : Globals :=
  let logStream := parseRecord p
  writeLog (writeCout g logStream) logStream

/-- First line put into `logStream` by `routePacket` (main.cpp:58). -/
def routeHead (p : Packet) : String :=
  "routing packet from " ++ p.sourceIP ++ " to " ++ p.destIP ++ "\n"

/-- Contents of `logStream` on the hit branch (main.cpp:60), `hop` being the
value read from the table. -/
def routeHit (p : Packet) (hop : String) : String :=
  routeHead p ++ "routed via " ++ hop ++ "\n"

/-- Contents of `logStream` on the miss branch (main.cpp:62). -/
def routeMiss (p : Packet) : String :=
  routeHead p ++ "no route found for destination " ++ p.destIP ++ "\n"

/-- The function `routePacket` (main.cpp:56-66). -/
def routePacket (p : Packet) (g : Globals) : Globals :=
  if (find g.routingTable p.destIP).isSome then
    let r := index g.routingTable p.destIP
    let logStream := routeHit p r.1
    writeLog (writeCout { g with routingTable := r.2 } logStream) logStream
  else
    let logStream := routeMiss p
    writeLog (writeCout g logStream) logStream

/-- The five texts `updateRoutingTable` inserts, one after the other, into
`std::cout` and then into `logFile` (main.cpp:99-100). -/
def updatePieces (destIP router : String) : List String :=
  ["updated routing table: ", destIP, " -> ", router, "\n"]

/-- The update record: the five texts of `updatePieces` in a row. -/
def updateRecord (destIP router : String) : String :=
  "updated routing table: " ++ destIP ++ " -> " ++ router ++ "\n"

/-- The function `updateRoutingTable` (main.cpp:96-101), run without
interference: the assignment, five insertions into `std::cout`, five into
`logFile`. -/
def updateRoutingTable (destIP router : String) (g : Globals) : Globals :=
  let g1 := { g with routingTable := assign g.routingTable destIP router }
  let g2 := (updatePieces destIP router).foldl writeCout g1
  (updatePieces destIP router).foldl writeLog g2

/-- The route record a lookup result stands for: the head line followed by
the hit line or the miss line. -/
def routeRecord (p : Packet) (r : Option String) : String :=
  match r with
  | some hop => routeHit p hop
  | none => routeMiss p

/-- Number of newline characters of a text, i.e. its number of lines when it
ends in a newline. -/
def lineCount (s : String) : Nat := s.toList.count (Char.ofNat 10)

/-- The two header lines written to `logFile` (main.cpp:108-109). -/
def header : List String := ["packet log\n", "==========\n"]

/-- The global variables once `main` has written the header and enqueued
`packets` (main.cpp:28-34, 106-123), no other thread existing yet; `opened`
tells whether the constructor of `logFile` opened the file. -/
def mainPrologue (opened : Bool) (packets : List Packet) : Globals :=
  let g0 : Globals :=
    { packetQueue := []
      routingTable := seedTable
      cout := []
      logFile := []
      logOpen := opened }
  let g1 := header.foldl writeLog g0
  { g1 with packetQueue := pushAll packets }

/-- A call of one of the three logging functions. -/
inductive Call where
  | parsePacket (p : Packet)
  | routePacket (p : Packet)
  | updateRoutingTable (destIP router : String)
  deriving DecidableEq, Repr

/-- The effect of a call run without interference. -/
def Call.exec : Call → Globals → Globals
  | .parsePacket p, g => PacketSim.parsePacket p g
  | .routePacket p, g => PacketSim.routePacket p g
  | .updateRoutingTable d r, g => PacketSim.updateRoutingTable d r g

/-- The effect of calls run one after the other. -/
def execCalls (calls : List Call) (g : Globals) : Globals :=
  calls.foldl (fun g c => c.exec g) g


/-! ## Threads

The worker threads run `processPackets`, the main thread runs `main`.  A
state holds the global variables, the owner of `packetQueueMutex` and one
program counter per thread.  Each step executes one access to shared state;
`sleep_for` and `detach` leave the state unchanged and are not steps.

* `routingTable[destIP] = router` (main.cpp:98) is two steps: `operator[]`,
  which inserts the key with an empty string when it is absent, and the
  assignment of the string.
* An insertion into `std::cout` is one step appending one entry (concurrent
  use of `std::cout` is no data race); the output statement of
  `updateRoutingTable` is five insertions.
* An insertion into `logFile` is two steps, the read of the put position and
  the store (`storeLog`): the stream is shared and the workers use it
  without a lock, so that an entry can be overwritten.  This shows the loss
  of entries; nothing is proved about the contents of the file in runs where
  insertions of different threads overlap. -/

/-- Thread identifiers. -/
inductive Tid where
  | driver
  | worker (i : Nat)
  deriving DecidableEq, Repr

/-- Program counter of a worker in `processPackets` (and the two functions it
calls), with the values of its local variables. -/
inductive WorkerPC where
  /-- Before `std::unique_lock lock(packetQueueMutex)` (main.cpp:74). -/
  | lock
  /-- Before `if (!packetQueue.empty())`, `packet = packetQueue.top()`
  (main.cpp:76-77); holds the mutex. -/
  | test
  /-- Before `packetQueue.pop()` (main.cpp:78); holds the mutex. -/
  | pop (packet : Packet)
  /-- Before `lock.unlock()` (main.cpp:79); holds the mutex. -/
  | unlock (packet : Packet)
  /-- Before `lock.unlock()` on the empty branch (main.cpp:85); holds the
  mutex. -/
  | unlockEmpty
  /-- Before `std::cout << logStream.str()` in `parsePacket` (main.cpp:48). -/
  | parseCout (packet : Packet)
  /-- Before `logFile << logStream.str()` in `parsePacket` (main.cpp:49). -/
  | parseLog (packet : Packet)
  /-- Inside that insertion, the put position `pos` read, before the store. -/
  | parseLogStore (packet : Packet) (pos : Nat)
  /-- Before `routingTable.find(packet.destIP)` (main.cpp:59). -/
  | find (packet : Packet)
  /-- Before `routingTable[packet.destIP]` (main.cpp:60). -/
  | index (packet : Packet)
  /-- Before `std::cout << logStream.str()` in `routePacket` (main.cpp:64). -/
  | routeCout (packet : Packet) (logStream : String)
  /-- Before `logFile << logStream.str()` in `routePacket` (main.cpp:65). -/
  | routeLog (packet : Packet) (logStream : String)
  /-- Inside that insertion, the put position `pos` read, before the store. -/
  | routeLogStore (packet : Packet) (logStream : String) (pos : Nat)
  deriving DecidableEq, Repr

/-- Program counter of the main thread from the moment the workers have been
started (main.cpp:129). -/
inductive DriverPC where
  /-- In `sleep_for(2s)`, before the `lock_guard` of `updateRoutingTable`
  (main.cpp:132, 97). -/
  | sleep1
  /-- Before `routingTable[destIP]` of main.cpp:98; holds the mutex. -/
  | index
  /-- Before the assignment `... = router` of main.cpp:98; holds the mutex. -/
  | store
  /-- Before insertion number `k` into `std::cout` (main.cpp:99); holds the
  mutex. -/
  | updCout (k : Fin 5)
  /-- Before insertion number `k` into `logFile` (main.cpp:100); holds the
  mutex. -/
  | updLog (k : Fin 5)
  /-- Inside that insertion, the put position `pos` read, before the store;
  holds the mutex. -/
  | updLogStore (k : Fin 5) (pos : Nat)
  /-- Before the end of the `lock_guard` scope (main.cpp:101); holds the
  mutex. -/
  | updUnlock
  /-- In `sleep_for(5s)`, before `logFile.close()` (main.cpp:136-142). -/
  | sleep2
  /-- Before the closing message on `std::cout` (main.cpp:144). -/
  | message
  /-- Before `return 0` (main.cpp:145). -/
  | ret
  /-- After `main` has returned: the process is over. -/
  | exited
  deriving DecidableEq, Repr

/-- State of the running program.  `dequeued` is a history variable, read by
no step: the packets handed to workers so far, recorded at `pop()`. -/
structure State where
  g : Globals
  packetQueueMutex : Option Tid
  workers : List WorkerPC
  driver : DriverPC
  dequeued : List Packet
  deriving DecidableEq, Repr

/-- Destination of the update in `main` (main.cpp:133). -/
def updDest : String := "10.0.0.5"

/-- Router of the update in `main` (main.cpp:133). -/
def updRouter : String := "Router E"

/-- Text number `k` of the update of `main`. -/
def updPiece (k : Fin 5) : String := (updatePieces updDest updRouter).getD k.val ""

/-- The closing message (main.cpp:144). -/
def closingMessage : String :=
  "packet processing simulation complete. check \x27packet_log.txt\x27 for details.\n"

/-- The state once `main` has written the header, enqueued `packets` and
started `n` workers (main.cpp:106-129); the source has the sample packets and
`n = 2`.  `opened` tells whether the log file could be opened. -/
def initState (n : Nat) (opened : Bool) (packets : List Packet) : State :=
  { g := mainPrologue opened packets
    packetQueueMutex := none
    workers := List.replicate n WorkerPC.lock
    driver := DriverPC.sleep1
    dequeued := [] }

/-- Store a new program counter for worker `i`. -/
def setWorker (s : State) (i : Nat) (pc : WorkerPC) : State :=
  { s with workers := s.workers.set i pc }

/-- One step of `processPackets` (main.cpp:72-89, with `parsePacket` and
`routePacket` inlined), taken by worker `i` standing at the given program
counter. -/
def processPacketsStep (s : State) (i : Nat) : WorkerPC → Option State
  | .lock =>
    match s.packetQueueMutex with
    | none => some { setWorker s i .test with packetQueueMutex := some (.worker i) }
    | some _ => none
  | .test =>
    if !empty s.g.packetQueue then
      some (setWorker s i (.pop (top s.g.packetQueue)))
    else
      some (setWorker s i .unlockEmpty)
  | .pop packet =>
    some { setWorker s i (.unlock packet) with
      g := { s.g with packetQueue := pop s.g.packetQueue }
      dequeued := s.dequeued ++ [packet] }
  | .unlock packet =>
    some { setWorker s i (.parseCout packet) with packetQueueMutex := none }
  | .unlockEmpty =>
    some { setWorker s i .lock with packetQueueMutex := none }
  | .parseCout packet =>
    some { setWorker s i (.parseLog packet) with g := writeCout s.g (parseRecord packet) }
  | .parseLog packet =>
    some (setWorker s i (.parseLogStore packet s.g.logFile.length))
  | .parseLogStore packet pos =>
    some { setWorker s i (.find packet) with g := storeLog s.g pos (parseRecord packet) }
  | .find packet =>
    if (find s.g.routingTable packet.destIP).isSome then
      some (setWorker s i (.index packet))
    else
      some (setWorker s i (.routeCout packet (routeMiss packet)))
  | .index packet =>
    let r := index s.g.routingTable packet.destIP
    some { setWorker s i (.routeCout packet (routeHit packet r.1)) with
      g := { s.g with routingTable := r.2 } }
  | .routeCout packet logStream =>
    some { setWorker s i (.routeLog packet logStream) with g := writeCout s.g logStream }
  | .routeLog packet logStream =>
    some (setWorker s i (.routeLogStore packet logStream s.g.logFile.length))
  | .routeLogStore _ logStream pos =>
    some { setWorker s i .lock with g := storeLog s.g pos logStream }

/-- The program counter after insertion `k` of a statement of five
insertions: the next insertion, or `done` after the last. -/
def nextInsertion (k : Fin 5) (next : Fin 5 → DriverPC) (done : DriverPC) : DriverPC :=
  if h : k.val + 1 < 5 then next ⟨k.val + 1, h⟩ else done

/-- One step of `main` once the workers are started (main.cpp:131-145, with
`updateRoutingTable` inlined). -/
def mainStep (s : State) : Option State :=
  match s.driver with
  | .sleep1 =>
    match s.packetQueueMutex with
    | none => some { s with driver := .index, packetQueueMutex := some .driver }
    | some _ => none
  | .index =>
    some { s with
      driver := .store
      g := { s.g with routingTable := (index s.g.routingTable updDest).2 } }
  | .store =>
    some { s with
      driver := .updCout 0
      g := { s.g with routingTable := assign s.g.routingTable updDest updRouter } }
  | .updCout k =>
    some { s with
      driver := nextInsertion k .updCout (.updLog 0)
      g := writeCout s.g (updPiece k) }
  | .updLog k =>
    some { s with driver := .updLogStore k s.g.logFile.length }
  | .updLogStore k pos =>
    some { s with
      driver := nextInsertion k .updLog .updUnlock
      g := storeLog s.g pos (updPiece k) }
  | .updUnlock => some { s with driver := .sleep2, packetQueueMutex := none }
  | .sleep2 => some { s with driver := .message, g := { s.g with logOpen := false } }
  | .message => some { s with driver := .ret, g := writeCout s.g closingMessage }
  | .ret => some { s with driver := .exited }
  | .exited => none

/-- One step of thread `t`; `none` when `t` cannot take a step (it waits for
the mutex, it does not exist, or the process is over). -/
def step (s : State) (t : Tid) : Option State :=
  if s.driver = .exited then none
  else
    match t with
    | .driver => mainStep s
    | .worker i =>
      match s.workers[i]? with
      | some pc => processPacketsStep s i pc
      | none => none

/-- Run a schedule: the threads take steps in the order listed. -/
def run (s : State) : List Tid → Option State
  | [] => some s
  | t :: sched =>
    match step s t with
    | some s' => run s' sched
    | none => none

/-- Program counters at which a worker holds the mutex. -/
def WorkerPC.holdsMutex : WorkerPC → Bool
  | .test | .pop _ | .unlock _ | .unlockEmpty => true
  | _ => false

/-- Program counters at which the main thread holds the mutex. -/
def DriverPC.holdsMutex : DriverPC → Bool
  | .index | .store | .updCout _ | .updLog _ | .updLogStore _ _ | .updUnlock => true
  | _ => false

/-- Program counters at which a worker is about to access `routingTable`. -/
def WorkerPC.accessesTable : WorkerPC → Bool
  | .find _ | .index _ => true
  | _ => false

/-- Program counters at which the main thread is about to access
`routingTable`. -/
def DriverPC.accessesTable : DriverPC → Bool
  | .index | .store => true
  | _ => false


/-! ## Invariants of the run -/

/-- The routing table once `operator[]` of main.cpp:98 has inserted the new
destination with an empty string. -/
def insertedTable : RoutingTable := (index seedTable updDest).2

/-- The routing table after the update of `main`. -/
def updatedTable : RoutingTable := assign insertedTable updDest updRouter

/-- The routing table at each program counter of the main thread: the seed
up to `operator[]`, the table with the empty entry between `operator[]` and
the assignment, the updated table from then on. -/
def DriverPC.tableOf : DriverPC → RoutingTable
  | .sleep1 | .index => seedTable
  | .store => insertedTable
  | _ => updatedTable

/-- Invariant of the run with `packets` enqueued: the mutex is owned exactly
by the thread inside a critical section, the queue is a heap, a worker about
to `pop()` has the current top in its local variable, dequeued and queued
packets together are the enqueued ones, the routing table is the one of the
main thread's program counter, and a worker about to read
`routingTable[destIP]` has a destination that is a key. -/
structure Inv (packets : List Packet) (s : State) : Prop where
  workerMutex : ∀ (i : Nat) (pc : WorkerPC), s.workers[i]? = some pc →
    (pc.holdsMutex = true ↔ s.packetQueueMutex = some (.worker i))
  driverMutex : s.driver.holdsMutex = true ↔ s.packetQueueMutex = some .driver
  heap : HeapInv s.g.packetQueue
  atPop : ∀ (i : Nat) (p : Packet), s.workers[i]? = some (WorkerPC.pop p) →
    s.g.packetQueue ≠ [] ∧ top s.g.packetQueue = p
  conserve : (s.dequeued ++ s.g.packetQueue).Perm packets
  table : s.g.routingTable = s.driver.tableOf
  atIndex : ∀ (i : Nat) (p : Packet), s.workers[i]? = some (WorkerPC.index p) →
    (find s.g.routingTable p.destIP).isSome = true

/-! ### Standard output -/

/-- The packet a worker has taken from the queue and not finished. -/
def WorkerPC.held : WorkerPC → List Packet
  | .unlock p | .parseCout p | .parseLog p | .parseLogStore p _ | .find p | .index p => [p]
  | .routeCout p _ | .routeLog p _ | .routeLogStore p _ _ => [p]
  | _ => []

/-- A worker has a packet in hand. -/
def WorkerPC.processing (w : WorkerPC) : Bool := !w.held.isEmpty

/-- The records of its current packet a worker has written to `std::cout`. -/
def WorkerPC.coutPart : WorkerPC → List String
  | .parseLog p | .parseLogStore p _ | .find p | .index p | .routeCout p _ => [parseRecord p]
  | .routeLog p r | .routeLogStore p r _ => [parseRecord p, r]
  | _ => []

/-- What the main thread has written to `std::cout`. -/
def DriverPC.coutPart : DriverPC → List String
  | .sleep1 | .index | .store => []
  | .updCout k => (updatePieces updDest updRouter).take k.val
  | .updLog _ | .updLogStore _ _ | .updUnlock | .sleep2 | .message =>
    updatePieces updDest updRouter
  | .ret | .exited => updatePieces updDest updRouter ++ [closingMessage]

/-- The call `updateRoutingTable` of `main` has returned. -/
def DriverPC.updateDone : DriverPC → Bool
  | .sleep2 | .message | .ret | .exited => true
  | _ => false

/-- The two records of a processed packet: its parse record and its route
record. -/
def recordsOf (d : Packet × String) : List String := [parseRecord d.1, d.2]

/-- The text `r` is a route record of `p`: the record of a lookup of
`p.destIP` in one of the three tables the run goes through. -/
def RouteRecordOf (p : Packet) (r : String) : Prop :=
  r = routeRecord p (find seedTable p.destIP) ∨
  r = routeRecord p (find insertedTable p.destIP) ∨
  r = routeRecord p (find updatedTable p.destIP)

/-- The `logStream` a worker is about to write is a route record of its
packet. -/
def WorkerPC.RouteOk : WorkerPC → Prop
  | .routeCout p r | .routeLog p r | .routeLogStore p r _ => RouteRecordOf p r
  | _ => True

/-- Invariant of standard output, `done` listing the packets processed so far
with their route records: the dequeued packets are the processed ones and
those in the hands of workers; `std::cout` holds the records of the processed
packets, the records written so far for the packets in hand and the output of
the main thread; a parse record precedes its route record, and the texts of
the main thread stand in the order written. -/
structure LogInv (done : List (Packet × String)) (s : State) : Prop where
  held : (↑(done.map Prod.fst) + ↑(s.workers.flatMap WorkerPC.held) : Multiset Packet)
    = ↑s.dequeued
  cout : (↑(done.flatMap recordsOf) + ↑s.driver.coutPart
    + ↑(s.workers.flatMap WorkerPC.coutPart) : Multiset String) = ↑s.g.cout
  order : ∀ d ∈ done, RouteRecordOf d.1 d.2 ∧ (recordsOf d).Sublist s.g.cout
  part : ∀ (i : Nat) (w : WorkerPC), s.workers[i]? = some w →
    w.coutPart.Sublist s.g.cout ∧ w.RouteOk
  driverPart : s.driver.coutPart.Sublist s.g.cout


/-! ## Some schedules of the seeded run -/

/-- The thread `t` takes `k` steps in a row. -/
def steps (t : Tid) (k : Nat) : List Tid := List.replicate k t

/-- The state reached by a schedule of the run with `n` workers (the initial
state when the schedule cannot be run). -/
def stateAfter (n : Nat) (opened : Bool) (packets : List Packet) (sched : List Tid) : State :=
  (run (initState n opened packets) sched).getD (initState n opened packets)

/-- Worker 0 dequeues the first packet, leaves the critical section and
writes the parse record (main.cpp:74-79, 48-49); then the main thread enters
`updateRoutingTable` and takes the mutex (main.cpp:97). -/
def raceSchedule : List Tid := steps (.worker 0) 7 ++ steps .driver 1

/-- Two workers dequeue one packet each, then the main thread takes the mutex
and runs `operator[]`. -/
def twoWorkerSchedule : List Tid :=
  steps (.worker 0) 4 ++ steps (.worker 1) 4 ++ steps .driver 2

/-- Worker 0 processes the four packets one after the other and finds the
queue empty; then the main thread runs `updateRoutingTable`.  No two accesses
to the log file overlap, and the worker has released the mutex after its last
one before the main thread takes it. -/
def serialSchedule : List Tid := steps (.worker 0) 50 ++ steps .driver 19

/-- The schedule `serialSchedule` followed by the rest of `main`: close the
log file, write the closing message, return. -/
def completeSchedule : List Tid := serialSchedule ++ steps .driver 3

/-- The main thread runs `updateRoutingTable` and closes the log file before
a worker has taken a step; then worker 0 processes the four packets. -/
def earlyCloseSchedule : List Tid := steps .driver 20 ++ steps (.worker 0) 48

/-- Workers 0 and 1 dequeue one packet each and write the parse record to
`std::cout`; both read the put position of `logFile` before either stores,
so that the record of worker 1 overwrites the record of worker 0. -/
def overlapSchedule : List Tid :=
  steps (.worker 0) 5 ++ steps (.worker 1) 5 ++
    [.worker 0, .worker 1, .worker 0, .worker 1]

/-- The schedule `overlapSchedule` continued to the end of the processing:
the two workers finish their packets, worker 0 processes the other two and
finds the queue empty, and the main thread runs `updateRoutingTable`; the log
file stays open. -/
def lostRecordSchedule : List Tid :=
  overlapSchedule ++ steps (.worker 0) 4 ++ steps (.worker 1) 5 ++
    steps (.worker 0) 27 ++ steps .driver 19

/-- Worker 0 dequeues the first packet; the main thread starts
`updateRoutingTable` and makes the first of its five insertions into
`std::cout`; worker 0 writes its parse record; then the main thread and the
worker finish. -/
def splitSchedule : List Tid :=
  steps (.worker 0) 4 ++ steps .driver 4 ++ steps (.worker 0) 1 ++ steps .driver 15 ++
    steps (.worker 0) 43

/-! ## Heap lemmas -/

theorem at_set (v : PQueue) (i j : Nat) (a : Packet) :
    at_ (v.set i a) j = if i = j ∧ i < v.length then a else at_ v j := by
  unfold at_
  rw [List.getD_eq_getElem?_getD, List.getD_eq_getElem?_getD, List.getElem?_set]
  by_cases h : i = j
  · subst h
    by_cases h2 : i < v.length
    · simp [h2]
    · have : v[i]? = none := List.getElem?_eq_none (by omega)
      simp [h2, this]
  · simp [h]

theorem at_eq_getElem (v : PQueue) (i : Nat) (h : i < v.length) : at_ v i = v[i] := by
  unfold at_
  exact List.getD_eq_getElem v default h

theorem prioAt_set (v : PQueue) (i j : Nat) (a : Packet) :
    prioAt (v.set i a) j = if i = j ∧ i < v.length then a.priority else prioAt v j := by
  unfold prioAt
  rw [at_set]
  split <;> rfl

theorem set_swap_perm (v : PQueue) (i j : Nat) (x : Packet)
    (hij : i ≠ j) (hi : i < v.length) (hj : j < v.length) :
    ((v.set i (at_ v j)).set j x).Perm (v.set i x) := by
  rw [List.perm_iff_count]
  intro b
  have hj2 : j < (v.set i (at_ v j)).length := by simpa using hj
  rw [List.count_set _ _ _ _ hj2, List.count_set _ _ _ _ hi, List.count_set _ _ _ _ hi]
  have e1 : (v.set i (at_ v j))[j] = v[j] := by
    rw [List.getElem_set]; simp [hij]
  rw [e1, at_eq_getElem v j hj]
  split_ifs <;> omega

theorem pushHeapLoop_length (fuel : Nat) : ∀ (v : PQueue) (h t : Nat) (x : Packet),
    (pushHeapLoop fuel v h t x).length = v.length := by
  induction fuel with
  | zero => intro v h t x; simp [pushHeapLoop]
  | succ n ih =>
    intro v h t x
    simp only [pushHeapLoop]
    split
    · rw [ih]; simp
    · simp

theorem pushHeapLoop_perm (fuel : Nat) : ∀ (v : PQueue) (h t : Nat) (x : Packet),
    h < v.length → (pushHeapLoop fuel v h t x).Perm (v.set h x) := by
  induction fuel with
  | zero => intro v h t x _; simp [pushHeapLoop]
  | succ n ih =>
    intro v h t x hh
    simp only [pushHeapLoop]
    split
    · rename_i hc
      have hp : (h - 1) / 2 < h := by omega
      refine (ih _ _ _ _ (by simp; omega)).trans ?_
      exact set_swap_perm v h ((h - 1) / 2) x (by omega) hh (by omega)
    · exact List.Perm.refl _

theorem pushHeapLoop_outside (fuel : Nat) : ∀ (v : PQueue) (h t : Nat) (x : Packet) (j : Nat),
    h < j → at_ (pushHeapLoop fuel v h t x) j = at_ v j := by
  induction fuel with
  | zero => intro v h t x j hj; simp only [pushHeapLoop]; rw [at_set]; simp; omega
  | succ n ih =>
    intro v h t x j hj
    simp only [pushHeapLoop]
    split
    · rw [ih _ _ _ _ _ (by omega), at_set]; simp; omega
    · rw [at_set]; simp; omega

theorem pushHeapLoop_heap (fuel : Nat) : ∀ (v : PQueue) (h : Nat) (x : Packet) (len : Nat),
    h ≤ fuel → h < len → len ≤ v.length → IsHeap v len →
    (∀ c, 0 < c → c < len → (c - 1) / 2 = h → prioAt v c ≤ x.priority) →
    IsHeap (pushHeapLoop fuel v h 0 x) len := by
  induction fuel with
  | zero =>
    intro v h x len hf hl hv hheap hch
    have h0 : h = 0 := by omega
    subst h0
    simp only [pushHeapLoop]
    intro i hi hil
    rw [prioAt_set, prioAt_set]
    have : ¬ (0 = i ∧ 0 < v.length) := by omega
    rw [if_neg this]
    split
    · exact hch i hi hil (by omega)
    · exact hheap i hi hil
  | succ n ih =>
    intro v h x len hf hl hv hheap hch
    simp only [pushHeapLoop]
    split
    · rename_i hc
      obtain ⟨hpos, hlt⟩ := hc
      have hlt' : prioAt v ((h - 1) / 2) < x.priority := by
        simpa [comp, prioAt] using hlt
      apply ih
      · omega
      · omega
      · simpa using hv
      · intro i hi hil
        rw [prioAt_set, prioAt_set]
        by_cases h1 : h = i
        · subst h1
          have : ¬ (h = (h - 1) / 2 ∧ h < v.length) := by omega
          rw [if_pos ⟨rfl, by omega⟩, if_neg this]
          exact le_refl _
        · rw [if_neg (by tauto)]
          by_cases h2 : h = (i - 1) / 2
          · rw [if_pos ⟨h2, by omega⟩]
            have a1 := hheap i hi hil
            have a2 := hheap h (by omega) hl
            rw [← h2] at a1
            exact le_trans a1 a2
          · rw [if_neg (by tauto)]
            exact hheap i hi hil
      · intro c hc0 hcl hcp
        rw [prioAt_set]
        split
        · exact le_of_lt hlt'
        · have := hheap c hc0 hcl
          rw [hcp] at this
          exact le_trans this (le_of_lt hlt')
    · rename_i hc
      intro i hi hil
      rw [prioAt_set, prioAt_set]
      by_cases h1 : h = i
      · subst h1
        have : ¬ (h = (h - 1) / 2 ∧ h < v.length) := by omega
        rw [if_pos ⟨rfl, by omega⟩, if_neg this]
        have : ¬ (comp (at_ v ((h - 1) / 2)) x = true) := by
          intro hcmp; exact hc ⟨hi, hcmp⟩
        simpa [comp, prioAt] using this
      · rw [if_neg (by tauto)]
        by_cases h2 : h = (i - 1) / 2
        · rw [if_pos ⟨h2, by omega⟩]
          exact hch i hi hil h2.symm
        · rw [if_neg (by tauto)]
          exact hheap i hi hil

theorem adjustHeapLoop_length (fuel : Nat) : ∀ (v : PQueue) (h len : Nat),
    (adjustHeapLoop fuel v h len).1.length = v.length := by
  induction fuel with
  | zero => intro v h len; simp [adjustHeapLoop]
  | succ n ih =>
    intro v h len
    simp only [adjustHeapLoop]
    split
    · rw [ih]; simp
    · rfl

theorem adjustHeapLoop_outside (fuel : Nat) : ∀ (v : PQueue) (h len j : Nat),
    len ≤ j → at_ (adjustHeapLoop fuel v h len).1 j = at_ v j := by
  induction fuel with
  | zero => intro v h len j _; simp [adjustHeapLoop]
  | succ n ih =>
    intro v h len j hj
    simp only [adjustHeapLoop]
    split
    · rw [ih _ _ _ _ hj, at_set]; simp; omega
    · rfl

theorem adjustHeapLoop_hole (fuel : Nat) : ∀ (v : PQueue) (h len : Nat),
    h < len → len ≤ fuel + h + 1 →
    (adjustHeapLoop fuel v h len).2 < len ∧
      ¬ (adjustHeapLoop fuel v h len).2 < (len - 1) / 2 := by
  induction fuel with
  | zero => intro v h len hl hf; simp only [adjustHeapLoop]; omega
  | succ n ih =>
    intro v h len hl hf
    simp only [adjustHeapLoop]
    split
    · split
      · exact ih _ _ _ (by omega) (by omega)
      · exact ih _ _ _ (by omega) (by omega)
    · exact ⟨hl, by assumption⟩

theorem adjustHeapLoop_perm (fuel : Nat) : ∀ (v : PQueue) (h len : Nat) (x : Packet),
    h < len → len ≤ v.length →
    ((adjustHeapLoop fuel v h len).1.set (adjustHeapLoop fuel v h len).2 x).Perm (v.set h x) := by
  induction fuel with
  | zero => intro v h len x _ _; simp [adjustHeapLoop]
  | succ n ih =>
    intro v h len x hl hv
    simp only [adjustHeapLoop]
    split
    · split
      · refine (ih _ _ _ x (by omega) (by simpa using hv)).trans ?_
        exact set_swap_perm v h _ x (by omega) (by omega) (by omega)
      · refine (ih _ _ _ x (by omega) (by simpa using hv)).trans ?_
        exact set_swap_perm v h _ x (by omega) (by omega) (by omega)
    · exact List.Perm.refl _

/-- Moving the larger (or only) child `c` of the hole `h` up keeps the heap. -/
theorem isHeap_set_child (v : PQueue) (h c len : Nat) (hl : c < len) (hv : len ≤ v.length)
    (hc0 : 0 < c) (hpar : (c - 1) / 2 = h)
    (hbig : ∀ d, 0 < d → d < len → (d - 1) / 2 = h → prioAt v d ≤ prioAt v c)
    (hheap : IsHeap v len) : IsHeap (v.set h (at_ v c)) len := by
  intro i hi hil
  rw [prioAt_set, prioAt_set]
  by_cases h1 : h = i
  · subst h1
    have : ¬ (h = (h - 1) / 2 ∧ h < v.length) := by omega
    rw [if_pos ⟨rfl, by omega⟩, if_neg this]
    have a1 := hheap c hc0 hl
    rw [hpar] at a1
    exact le_trans a1 (hheap h hi hil)
  · rw [if_neg (by tauto)]
    by_cases h2 : h = (i - 1) / 2
    · rw [if_pos ⟨h2, by omega⟩]
      exact hbig i hi hil h2.symm
    · rw [if_neg (by tauto)]
      exact hheap i hi hil

theorem adjustHeapLoop_heap (fuel : Nat) : ∀ (v : PQueue) (h len : Nat),
    h < len → len ≤ v.length → IsHeap v len →
    IsHeap (adjustHeapLoop fuel v h len).1 len := by
  induction fuel with
  | zero => intro v h len _ _ hh; simpa [adjustHeapLoop] using hh
  | succ n ih =>
    intro v h len hl hv hheap
    simp only [adjustHeapLoop]
    split
    · rename_i hlt
      split
      · rename_i hc
        have hc' : prioAt v (2 * (h + 1)) < prioAt v (2 * (h + 1) - 1) := by
          simpa [comp, prioAt] using hc
        apply ih _ _ _ (by omega) (by simpa using hv)
        apply isHeap_set_child v h _ len (by omega) hv (by omega) (by omega) _ hheap
        intro d hd0 hdl hdp
        have : d = 2 * (h + 1) ∨ d = 2 * (h + 1) - 1 := by omega
        rcases this with rfl | rfl
        · exact le_of_lt hc'
        · exact le_refl _
      · rename_i hc
        have hc' : ¬ prioAt v (2 * (h + 1)) < prioAt v (2 * (h + 1) - 1) := by
          simpa [comp, prioAt] using hc
        apply ih _ _ _ (by omega) (by simpa using hv)
        apply isHeap_set_child v h _ len (by omega) hv (by omega) (by omega) _ hheap
        intro d hd0 hdl hdp
        have : d = 2 * (h + 1) ∨ d = 2 * (h + 1) - 1 := by omega
        rcases this with rfl | rfl
        · exact le_refl _
        · exact not_lt.mp hc'
    · exact hheap

theorem adjustHeap_length (v : PQueue) (len : Nat) (x : Packet) :
    (adjustHeap v 0 len x).length = v.length := by
  unfold adjustHeap
  simp only
  split
  · rw [pushHeapLoop_length]; simp [adjustHeapLoop_length]
  · rw [pushHeapLoop_length]; simp [adjustHeapLoop_length]

theorem adjustHeap_outside (v : PQueue) (len : Nat) (x : Packet) (j : Nat)
    (h0 : 0 < len) (hj : len ≤ j) :
    at_ (adjustHeap v 0 len x) j = at_ v j := by
  have hh := adjustHeapLoop_hole len v 0 len h0 (by omega)
  unfold adjustHeap
  simp only
  split
  · rw [pushHeapLoop_outside _ _ _ _ _ _ (by omega), at_set, if_neg (by omega)]
    exact adjustHeapLoop_outside _ _ _ _ _ hj
  · rw [pushHeapLoop_outside _ _ _ _ _ _ (by omega)]
    exact adjustHeapLoop_outside _ _ _ _ _ hj

theorem adjustHeap_perm (v : PQueue) (len : Nat) (x : Packet)
    (h0 : 0 < len) (hv : len ≤ v.length) :
    (adjustHeap v 0 len x).Perm (v.set 0 x) := by
  have hh := adjustHeapLoop_hole len v 0 len h0 (by omega)
  have hlen := adjustHeapLoop_length len v 0 len
  have hp := adjustHeapLoop_perm len v 0 len x h0 hv
  unfold adjustHeap
  simp only
  split
  · rename_i hc
    refine (pushHeapLoop_perm _ _ _ _ _ (by simp; omega)).trans ?_
    refine (set_swap_perm _ _ _ x (by omega) (by omega) (by omega)).trans ?_
    exact hp
  · exact (pushHeapLoop_perm _ _ _ _ _ (by omega)).trans hp

theorem adjustHeap_heap (v : PQueue) (len : Nat) (x : Packet)
    (h0 : 0 < len) (hv : len ≤ v.length) (hheap : IsHeap v len) :
    IsHeap (adjustHeap v 0 len x) len := by
  have hh := adjustHeapLoop_hole len v 0 len h0 (by omega)
  have hlen := adjustHeapLoop_length len v 0 len
  have hhp := adjustHeapLoop_heap len v 0 len h0 hv hheap
  unfold adjustHeap
  simp only
  split
  · rename_i hc
    apply pushHeapLoop_heap _ _ _ _ _ (by omega) (by omega) (by simp; omega)
    · apply isHeap_set_child _ _ _ len (by omega) (by omega) (by omega) (by omega) _ hhp
      intro d hd0 hdl hdp
      have : d = 2 * ((adjustHeapLoop len v 0 len).2 + 1) - 1 := by omega
      rw [this]
    · intro c hc0 hcl hcp
      omega
  · rename_i hc
    apply pushHeapLoop_heap _ _ _ _ _ (by omega) hh.1 (by omega) hhp
    intro c hc0 hcl hcp
    omega

theorem pushHeapLoop_set_hole (fuel : Nat) (v : PQueue) (h t : Nat) (x y : Packet) :
    pushHeapLoop fuel (v.set h y) h t x = pushHeapLoop fuel v h t x := by
  cases fuel with
  | zero => simp [pushHeapLoop]
  | succ n =>
    simp only [pushHeapLoop]
    by_cases hc : h > t
    · have e : at_ (v.set h y) ((h - 1) / 2) = at_ v ((h - 1) / 2) := by
        rw [at_set, if_neg (by omega)]
      rw [e, List.set_set, List.set_set]
    · have a1 : ¬ (h > t ∧ comp (at_ (v.set h y) ((h - 1) / 2)) x = true) := fun c => hc c.1
      have a2 : ¬ (h > t ∧ comp (at_ v ((h - 1) / 2)) x = true) := fun c => hc c.1
      rw [if_neg a1, if_neg a2, List.set_set]

theorem at_append_left (q : PQueue) (p : Packet) (i : Nat) (h : i < q.length) :
    at_ (q ++ [p]) i = at_ q i := by
  rw [at_eq_getElem _ _ (by simp; omega), at_eq_getElem _ _ h, List.getElem_append_left h]

theorem at_append_last (q : PQueue) (p : Packet) : at_ (q ++ [p]) q.length = p := by
  rw [at_eq_getElem _ _ (by simp)]
  simp

theorem push_length (q : PQueue) (p : Packet) : (push q p).length = q.length + 1 := by
  simp [push, pushHeap, pushHeapLoop_length]

theorem push_perm (q : PQueue) (p : Packet) : (push q p).Perm (p :: q) := by
  unfold push pushHeap
  have hl : (q ++ [p]).length - 1 = q.length := by simp
  rw [hl, at_append_last]
  refine (pushHeapLoop_perm _ _ _ _ _ (by simp)).trans ?_
  have : (q ++ [p]).set q.length p = q ++ [p] := by
    apply List.ext_getElem (by simp)
    intro i h1 h2
    rw [List.getElem_set]
    split
    · subst_vars; simp
    · rfl
  rw [this]
  exact List.perm_append_comm

theorem push_heapInv (q : PQueue) (p : Packet) (hq : HeapInv q) : HeapInv (push q p) := by
  unfold HeapInv
  rw [push_length]
  unfold push pushHeap
  have hl : (q ++ [p]).length - 1 = q.length := by simp
  rw [hl, at_append_last]
  rw [← pushHeapLoop_set_hole _ _ _ _ _ (at_ (q ++ [p]) ((q.length - 1) / 2))]
  apply pushHeapLoop_heap
  · simp
  · omega
  · simp
  · intro i hi hil
    rw [prioAt_set, prioAt_set]
    by_cases h1 : q.length = i
    · rw [if_pos ⟨h1, by simp⟩, if_neg (by omega)]
      subst h1
      rfl
    · rw [if_neg (by tauto), if_neg (by omega)]
      unfold prioAt
      rw [at_append_left _ _ _ (by omega), at_append_left _ _ _ (by omega)]
      exact hq i hi (by omega)
  · intro c hc0 hcl hcp
    omega

theorem popHeap_length (q : PQueue) : (popHeap q).length = q.length := by
  unfold popHeap
  split
  · simp [adjustHeap_length]
  · rfl

theorem popHeap_perm (q : PQueue) : (popHeap q).Perm q := by
  unfold popHeap
  split
  · rename_i h
    refine (adjustHeap_perm _ _ _ (by omega) (by simp)).trans ?_
    refine (set_swap_perm q (q.length - 1) 0 _ (by omega) (by omega) (by omega)).trans ?_
    have : q.set (q.length - 1) (at_ q (q.length - 1)) = q := by
      apply List.ext_getElem (by simp)
      intro i h1 h2
      rw [List.getElem_set]
      split
      · subst_vars; exact at_eq_getElem _ _ _
      · rfl
    rw [this]
  · exact List.Perm.refl _

theorem popHeap_last (q : PQueue) : at_ (popHeap q) (q.length - 1) = at_ q 0 := by
  unfold popHeap
  split
  · rename_i h
    rw [adjustHeap_outside _ _ _ _ (by omega) (le_refl _), at_set, if_pos ⟨rfl, by omega⟩]
  · rename_i h
    have : q.length - 1 = 0 := by omega
    rw [this]

theorem popHeap_heap (q : PQueue) (hq : HeapInv q) : IsHeap (popHeap q) (q.length - 1) := by
  unfold popHeap
  split
  · rename_i h
    apply adjustHeap_heap _ _ _ (by omega) (by simp)
    intro i hi hil
    rw [prioAt_set, prioAt_set, if_neg (by omega), if_neg (by omega)]
    exact hq i hi (by omega)
  · intro i hi hil
    omega

theorem at_dropLast (v : PQueue) (i : Nat) (h : i < v.length - 1) :
    at_ v.dropLast i = at_ v i := by
  rw [at_eq_getElem _ _ (by simp; omega), at_eq_getElem _ _ (by omega)]
  simp [List.dropLast_eq_take]

theorem pop_length (q : PQueue) : (pop q).length = q.length - 1 := by
  simp [pop, popHeap_length]

theorem pop_heapInv (q : PQueue) (hq : HeapInv q) : HeapInv (pop q) := by
  unfold HeapInv
  rw [pop_length]
  intro i hi hil
  unfold pop prioAt
  rw [at_dropLast _ _ (by rw [popHeap_length]; omega),
    at_dropLast _ _ (by rw [popHeap_length]; omega)]
  exact popHeap_heap q hq i hi hil

theorem top_pop_perm (q : PQueue) (hne : q ≠ []) : (top q :: pop q).Perm q := by
  have hlen : 0 < q.length := List.length_pos.mpr hne
  have hne2 : popHeap q ≠ [] := by
    intro h
    have := popHeap_length q
    rw [h] at this
    simp at this
    omega
  have h1 : (popHeap q).dropLast ++ [(popHeap q).getLast hne2] = popHeap q :=
    List.dropLast_append_getLast hne2
  have h2 : (popHeap q).getLast hne2 = top q := by
    rw [List.getLast_eq_getElem, ← at_eq_getElem, popHeap_length]
    exact popHeap_last q
  unfold pop
  rw [h2] at h1
  refine List.Perm.trans ?_ (popHeap_perm q)
  have h3 : (top q :: (popHeap q).dropLast).Perm ((popHeap q).dropLast ++ [top q]) :=
    @List.perm_append_comm _ [top q] (popHeap q).dropLast
  rw [h1] at h3
  exact h3

theorem heap_root_max (q : PQueue) (len : Nat) (hq : IsHeap q len) :
    ∀ i, i < len → prioAt q i ≤ prioAt q 0 := by
  intro i
  induction i using Nat.strong_induction_on with
  | _ i ih =>
    intro hi
    by_cases h0 : i = 0
    · subst h0; exact le_refl _
    · exact le_trans (hq i (by omega) hi) (ih ((i - 1) / 2) (by omega) (by omega))

theorem top_max (q : PQueue) (hq : HeapInv q) : ∀ x ∈ q, x.priority ≤ (top q).priority := by
  intro x hx
  obtain ⟨i, hi, rfl⟩ := List.getElem_of_mem hx
  have := heap_root_max q q.length hq i hi
  unfold prioAt at this
  rw [at_eq_getElem _ _ hi] at this
  exact this

theorem heapInv_nil : HeapInv [] := by
  intro i _ h
  simp at h

/-! ### The fuel is enough

With fuel at least the hole index, `pushHeapLoop` stops because its loop
condition fails, so that more fuel gives the same result; likewise for
`adjustHeapLoop` with `len ≤ fuel + holeIndex + 1`.  The calls in `pushHeap`
and `adjustHeap` pass the length of the range as fuel. -/

theorem pushHeapLoop_fuel (fuel : Nat) : ∀ (v : PQueue) (h t : Nat) (x : Packet) (k : Nat),
    h ≤ fuel → pushHeapLoop (fuel + k) v h t x = pushHeapLoop fuel v h t x := by
  induction fuel with
  | zero =>
    intro v h t x k hf
    have h0 : h = 0 := by omega
    subst h0
    cases k with
    | zero => rfl
    | succ k =>
      simp only [Nat.zero_add, pushHeapLoop]
      rw [if_neg (by omega)]
  | succ n ih =>
    intro v h t x k hf
    have e : n + 1 + k = (n + k) + 1 := by omega
    rw [e]
    simp only [pushHeapLoop]
    split
    · exact ih _ _ _ _ _ (by omega)
    · rfl

theorem adjustHeapLoop_fuel (fuel : Nat) : ∀ (v : PQueue) (h len k : Nat),
    len ≤ fuel + h + 1 → adjustHeapLoop (fuel + k) v h len = adjustHeapLoop fuel v h len := by
  induction fuel with
  | zero =>
    intro v h len k hf
    cases k with
    | zero => rfl
    | succ k =>
      simp only [Nat.zero_add, adjustHeapLoop]
      rw [if_neg (by omega)]
  | succ n ih =>
    intro v h len k hf
    have e : n + 1 + k = (n + k) + 1 := by omega
    rw [e]
    simp only [adjustHeapLoop]
    split
    · split
      · exact ih _ _ _ _ (by omega)
      · exact ih _ _ _ _ (by omega)
    · rfl

/-! ## The work queue: dequeue order -/

theorem runOps_heapInv (ops : List QOp) : HeapInv (runOps ops) := by
  unfold runOps
  suffices h : ∀ (q : PQueue), HeapInv q → HeapInv (ops.foldl applyOp q) from h [] heapInv_nil
  induction ops with
  | nil => intro q hq; exact hq
  | cons o ops ih =>
    intro q hq
    apply ih
    cases o with
    | push p => exact push_heapInv q p hq
    | dequeue =>
      simp only [applyOp, tryDequeue]
      by_cases he : (!empty q) = true
      · rw [if_pos he]; exact pop_heapInv q hq
      · rw [if_neg he]; exact hq

theorem tryDequeue_some (q : PQueue) (p : Packet) (q' : PQueue)
    (hq : HeapInv q) (h : tryDequeue q = some (p, q')) :
    (p :: q').Perm q ∧ (∀ x ∈ q', x.priority ≤ p.priority) ∧ HeapInv q' := by
  unfold tryDequeue at h
  split at h
  · rename_i hne
    cases h
    have hne' : q ≠ [] := by
      intro h0; subst h0; simp [empty] at hne
    have hperm := top_pop_perm q hne'
    refine ⟨hperm, ?_, pop_heapInv q hq⟩
    intro x hx
    exact top_max q hq x (hperm.subset (List.mem_cons_of_mem _ hx))
  · cases h

theorem tryDequeue_none (q : PQueue) : tryDequeue q = none ↔ q = [] := by
  unfold tryDequeue empty
  cases q <;> simp

/-- C1: on every queue obtained from the empty one by pushes and dequeues, a
push adds exactly the pushed packet, a dequeue attempt reports empty exactly
when the queue holds no packet, and a successful dequeue removes exactly the
returned packet, whose priority is at least that of every packet left. -/
theorem C1_dequeue_highest (ops : List QOp) :
    (∀ x, (push (runOps ops) x).Perm (x :: runOps ops)) ∧
    (tryDequeue (runOps ops) = none ↔ ∀ x, x ∉ runOps ops) ∧
    ∀ p q', tryDequeue (runOps ops) = some (p, q') →
      (p :: q').Perm (runOps ops) ∧ ∀ x ∈ q', x.priority ≤ p.priority := by
  refine ⟨fun x => push_perm _ x, ?_, ?_⟩
  · rw [tryDequeue_none, List.eq_nil_iff_forall_not_mem]
  · intro p q' h
    have := tryDequeue_some _ p q' (runOps_heapInv ops) h
    exact ⟨this.1, this.2.1⟩

/-- C1, seeded run: the four sample packets come out with priorities
5, 3, 2, 1, and the first dequeue leaves only packets of priority at most 5. -/
theorem C1_witness_sample_packets :
    (drain 5 (runOps (samplePackets.map QOp.push))).map Packet.priority = [5, 3, 2, 1] ∧
    tryDequeue (runOps (samplePackets.map QOp.push ++ List.replicate 4 QOp.dequeue)) = none ∧
    ∀ x ∈ pop (runOps (samplePackets.map QOp.push)), x.priority ≤ 5 :=
  ⟨by decide, by decide, fun x hx =>
    ((C1_dequeue_highest (samplePackets.map QOp.push)).2.2
      (top (runOps (samplePackets.map QOp.push)))
      (pop (runOps (samplePackets.map QOp.push))) (by decide)).2 x hx⟩

/-! ## The two streams -/

theorem writeLog_routingTable (g : Globals) (s : String) :
    (writeLog g s).routingTable = g.routingTable := by
  unfold writeLog; split <;> rfl

theorem writeLog_packetQueue (g : Globals) (s : String) :
    (writeLog g s).packetQueue = g.packetQueue := by
  unfold writeLog; split <;> rfl

theorem writeLog_cout (g : Globals) (s : String) : (writeLog g s).cout = g.cout := by
  unfold writeLog; split <;> rfl

theorem writeLog_logOpen (g : Globals) (s : String) : (writeLog g s).logOpen = g.logOpen := by
  unfold writeLog; split <;> rfl

theorem writeLog_logFile (g : Globals) (s : String) :
    (writeLog g s).logFile = if g.logOpen then g.logFile ++ [s] else g.logFile := by
  unfold writeLog; split <;> rfl

theorem storeLog_length (g : Globals) (s : String) :
    storeLog g g.logFile.length s = writeLog g s := by
  unfold storeLog writeLog
  rw [List.take_length]

theorem storeLog_routingTable (g : Globals) (n : Nat) (s : String) :
    (storeLog g n s).routingTable = g.routingTable := by
  unfold storeLog; split <;> rfl

theorem storeLog_packetQueue (g : Globals) (n : Nat) (s : String) :
    (storeLog g n s).packetQueue = g.packetQueue := by
  unfold storeLog; split <;> rfl

theorem storeLog_cout (g : Globals) (n : Nat) (s : String) :
    (storeLog g n s).cout = g.cout := by
  unfold storeLog; split <;> rfl

theorem storeLog_logOpen (g : Globals) (n : Nat) (s : String) :
    (storeLog g n s).logOpen = g.logOpen := by
  unfold storeLog; split <;> rfl

theorem foldl_writeCout (l : List String) : ∀ (g : Globals),
    l.foldl writeCout g = { g with cout := g.cout ++ l } := by
  induction l with
  | nil => intro g; simp
  | cons a l ih => intro g; rw [List.foldl_cons, ih]; simp [writeCout]

theorem foldl_writeLog (l : List String) : ∀ (g : Globals),
    l.foldl writeLog g = if g.logOpen then { g with logFile := g.logFile ++ l } else g := by
  induction l with
  | nil => intro g; simp
  | cons a l ih =>
    intro g
    rw [List.foldl_cons, ih, writeLog_logOpen]
    unfold writeLog
    split <;> simp

theorem updateRoutingTable_routingTable (d r : String) (g : Globals) :
    (updateRoutingTable d r g).routingTable = assign g.routingTable d r := by
  unfold updateRoutingTable
  simp only [foldl_writeLog, foldl_writeCout]
  split <;> rfl

/-! ## The routing table -/

theorem find_assign_same (t : RoutingTable) (d r : String) : find (assign t d r) d = some r := by
  induction t with
  | nil => simp [assign, find]
  | cons e t ih =>
    obtain ⟨k, v⟩ := e
    simp only [assign]
    split
    · rename_i h; simp [find, h]
    · rename_i h; simp [find, h, ih]

theorem find_assign_other (t : RoutingTable) (d r d' : String) (h : d' ≠ d) :
    find (assign t d r) d' = find t d' := by
  induction t with
  | nil => simp [assign, find, Ne.symm h]
  | cons e t ih =>
    obtain ⟨k, v⟩ := e
    simp only [assign]
    split
    · rename_i hk
      subst hk
      simp [find, Ne.symm h]
    · simp [find, ih]

theorem index_of_hit (t : RoutingTable) (k : String) (h : (find t k).isSome = true) :
    index t k = ((find t k).getD "", t) := by
  unfold index
  cases hf : find t k with
  | none => rw [hf] at h; cases h
  | some v => rfl

/-- C4: after `updateRoutingTable(d, r)` the lookup of `d` gives `r`, the
lookup of every other destination is what it was, and every destination that
had a route still has one. -/
theorem C4_update_lookup (g : Globals) (d r : String) :
    find (updateRoutingTable d r g).routingTable d = some r ∧
    (∀ d', d' ≠ d →
      find (updateRoutingTable d r g).routingTable d' = find g.routingTable d') ∧
    (∀ k, (find g.routingTable k).isSome = true →
      (find (updateRoutingTable d r g).routingTable k).isSome = true) := by
  have e : (updateRoutingTable d r g).routingTable = assign g.routingTable d r :=
    updateRoutingTable_routingTable d r g
  rw [e]
  refine ⟨find_assign_same _ d r, fun d' h => find_assign_other _ d r d' h, ?_⟩
  intro k hk
  by_cases h : k = d
  · subst h; rw [find_assign_same]; rfl
  · rw [find_assign_other _ _ _ _ h]; exact hk

/-- C4 on the update of `main`: the new destination resolves to Router E, the
seeded destination 10.0.0.1 still resolves to Router C, and an unknown
destination is still unknown. -/
theorem C4_witness_main_update :
    find (updateRoutingTable "10.0.0.5" "Router E"
      ⟨[], seedTable, [], header, true⟩).routingTable "10.0.0.1" = some "Router C" ∧
    find (updateRoutingTable "10.0.0.5" "Router E"
      ⟨[], seedTable, [], header, true⟩).routingTable "10.0.0.9" = none ∧
    find (updateRoutingTable "10.0.0.5" "Router E"
      ⟨[], seedTable, [], header, true⟩).routingTable "10.0.0.5" = some "Router E" :=
  ⟨((C4_update_lookup ⟨[], seedTable, [], header, true⟩ "10.0.0.5" "Router E").2.1
      "10.0.0.1" (by decide)).trans (by decide),
   ((C4_update_lookup ⟨[], seedTable, [], header, true⟩ "10.0.0.5" "Router E").2.1
      "10.0.0.9" (by decide)).trans (by decide),
   (C4_update_lookup ⟨[], seedTable, [], header, true⟩ "10.0.0.5" "Router E").1⟩

/-! ## The parse and route records -/

theorem lineCount_append (a b : String) : lineCount (a ++ b) = lineCount a + lineCount b := by
  simp [lineCount, String.toList, String.data_append, List.count_append]

theorem digitChar_ne_newline (d : Nat) : Nat.digitChar d ≠ Char.ofNat 10 := by
  by_cases h : d < 16
  · interval_cases d <;> decide
  · have e : Nat.digitChar d = Char.ofNat 42 := by
      unfold Nat.digitChar
      repeat rw [if_neg (by omega)]
    rw [e]
    decide

theorem toDigitsCore_count (fuel : Nat) : ∀ (n : Nat) (ds : List Char),
    (Nat.toDigitsCore 10 fuel n ds).count (Char.ofNat 10) = ds.count (Char.ofNat 10) := by
  induction fuel with
  | zero => intro n ds; simp [Nat.toDigitsCore]
  | succ f ih =>
    intro n ds
    simp only [Nat.toDigitsCore]
    have hd : (Nat.digitChar (n % 10) :: ds).count (Char.ofNat 10) = ds.count (Char.ofNat 10) := by
      rw [List.count_cons]
      have := digitChar_ne_newline (n % 10)
      simp [this]
    split
    · exact hd
    · rw [ih]; exact hd

theorem lineCount_natRepr (n : Nat) : lineCount (Nat.repr n) = 0 := by
  unfold lineCount Nat.repr Nat.toDigits
  simp only [String.toList, List.asString]
  rw [toDigitsCore_count]
  rfl

theorem lineCount_toString_int (i : Int) : lineCount (toString i) = 0 := by
  cases i with
  | ofNat m => exact lineCount_natRepr m
  | negSucc m =>
    show lineCount ("-" ++ Nat.repr (m + 1)) = 0
    rw [lineCount_append, lineCount_natRepr]
    decide

theorem routePacket_table (p : Packet) (g : Globals) :
    (routePacket p g).routingTable = g.routingTable := by
  unfold routePacket
  by_cases h : (find g.routingTable p.destIP).isSome = true
  · rw [if_pos h]
    simp only [writeLog_routingTable, writeCout, index_of_hit _ _ h]
  · rw [if_neg h]
    simp only [writeLog_routingTable, writeCout]

theorem routePacket_packetQueue (p : Packet) (g : Globals) :
    (routePacket p g).packetQueue = g.packetQueue := by
  unfold routePacket
  split <;> simp only [writeLog_packetQueue, writeCout]

theorem routePacket_cout (p : Packet) (g : Globals) :
    (routePacket p g).cout = g.cout ++ [routeRecord p (find g.routingTable p.destIP)] := by
  unfold routePacket
  cases hf : find g.routingTable p.destIP with
  | none =>
    simp only [Option.isSome_none, Bool.false_eq_true, if_false, routeRecord, writeLog_cout,
      writeCout]
  | some v =>
    have h : (find g.routingTable p.destIP).isSome = true := by rw [hf]; rfl
    simp only [Option.isSome_some, if_true, index_of_hit _ _ h, hf, Option.getD_some, routeRecord,
      writeLog_cout, writeCout]

theorem routePacket_logFile (p : Packet) (g : Globals) :
    (routePacket p g).logFile =
      if g.logOpen then g.logFile ++ [routeRecord p (find g.routingTable p.destIP)]
      else g.logFile := by
  unfold routePacket
  cases hf : find g.routingTable p.destIP with
  | none =>
    simp only [Option.isSome_none, Bool.false_eq_true, if_false, routeRecord, writeLog_logFile,
      writeCout]
  | some v =>
    have h : (find g.routingTable p.destIP).isSome = true := by rw [hf]; rfl
    simp only [Option.isSome_some, if_true, index_of_hit _ _ h, hf, Option.getD_some, routeRecord,
      writeLog_logFile, writeCout]

/-- C6: the record `routePacket` writes (to `std::cout`, and to the log file
when it is open) is the line "routing packet from SRC to DST" followed by one
line: "routed via LABEL" with the table's value for DST when DST is a key,
"no route found for destination DST" otherwise; it has two lines when the
texts involved have no newline, and two packets with the same source and
destination get the same record. -/
theorem C6_route_record (p : Packet) (g : Globals) :
    (routePacket p g).cout = g.cout ++
      ["routing packet from " ++ p.sourceIP ++ " to " ++ p.destIP ++ "\n" ++
        (match find g.routingTable p.destIP with
         | some label => "routed via " ++ label ++ "\n"
         | none => "no route found for destination " ++ p.destIP ++ "\n")] ∧
    (routePacket p g).logFile =
      (if g.logOpen then g.logFile ++
        ["routing packet from " ++ p.sourceIP ++ " to " ++ p.destIP ++ "\n" ++
          (match find g.routingTable p.destIP with
           | some label => "routed via " ++ label ++ "\n"
           | none => "no route found for destination " ++ p.destIP ++ "\n")]
       else g.logFile) ∧
    lineCount (routeRecord p (find g.routingTable p.destIP)) =
      2 + lineCount p.sourceIP + lineCount p.destIP +
        (match find g.routingTable p.destIP with
         | some label => lineCount label
         | none => lineCount p.destIP) ∧
    ∀ p' : Packet, p'.sourceIP = p.sourceIP → p'.destIP = p.destIP →
      routePacket p' g = routePacket p g := by
  have hrec : routeRecord p (find g.routingTable p.destIP) =
      "routing packet from " ++ p.sourceIP ++ " to " ++ p.destIP ++ "\n" ++
        (match find g.routingTable p.destIP with
         | some label => "routed via " ++ label ++ "\n"
         | none => "no route found for destination " ++ p.destIP ++ "\n") := by
    cases find g.routingTable p.destIP with
    | none => simp only [routeRecord, routeMiss, routeHead, String.append_assoc]
    | some v => simp only [routeRecord, routeHit, routeHead, String.append_assoc]
  refine ⟨?_, ?_, ?_, ?_⟩
  · rw [routePacket_cout, hrec]
  · rw [routePacket_logFile, hrec]
  · rw [hrec]
    have h1 : lineCount "routing packet from " = 0 := by decide
    have h2 : lineCount " to " = 0 := by decide
    have h3 : lineCount "\n" = 1 := by decide
    have h4 : lineCount "routed via " = 0 := by decide
    have h5 : lineCount "no route found for destination " = 0 := by decide
    cases find g.routingTable p.destIP with
    | none => simp only [lineCount_append, h1, h2, h3, h5]; omega
    | some v => simp only [lineCount_append, h1, h2, h3, h4]; omega
  · intro p' hs hd
    unfold routePacket routeHit routeMiss routeHead
    rw [hs, hd]

/-- C6 on the first and the fourth sample packet with the seed table: a hit
via Router A and a miss; a packet with the same addresses and other
protocol, size and priority gets the same record. -/
theorem C6_witness_hit_and_miss :
    (routePacket ⟨"192.168.1.100", "192.168.1.1", "TCP", 500, 2⟩
      ⟨[], seedTable, [], header, true⟩).cout =
      ["routing packet from 192.168.1.100 to 192.168.1.1\nrouted via Router A\n"] ∧
    (routePacket ⟨"192.168.1.200", "10.0.0.5", "ICMP", 100, 5⟩
      ⟨[], seedTable, [], header, true⟩).cout =
      ["routing packet from 192.168.1.200 to 10.0.0.5\nno route found for destination 10.0.0.5\n"] ∧
    routePacket ⟨"192.168.1.100", "192.168.1.1", "UDP", 1, 9⟩ ⟨[], seedTable, [], header, true⟩ =
      routePacket ⟨"192.168.1.100", "192.168.1.1", "TCP", 500, 2⟩
        ⟨[], seedTable, [], header, true⟩ :=
  ⟨(C6_route_record ⟨"192.168.1.100", "192.168.1.1", "TCP", 500, 2⟩
      ⟨[], seedTable, [], header, true⟩).1.trans (by decide),
   (C6_route_record ⟨"192.168.1.200", "10.0.0.5", "ICMP", 100, 5⟩
      ⟨[], seedTable, [], header, true⟩).1.trans (by decide),
   (C6_route_record ⟨"192.168.1.100", "192.168.1.1", "TCP", 500, 2⟩
      ⟨[], seedTable, [], header, true⟩).2.2.2 ⟨"192.168.1.100", "192.168.1.1", "UDP", 1, 9⟩
      rfl rfl⟩

/-- C7 as stated fails: the parse record of the first sample packet starts
with the heading line "parsing packet:" and has six lines, not five. -/
theorem C7_five_lines_counterexample :
    (parsePacket ⟨"192.168.1.100", "192.168.1.1", "TCP", 500, 2⟩
      ⟨[], seedTable, [], header, true⟩).cout =
      ["parsing packet:\nsource ip: 192.168.1.100\ndestination ip: 192.168.1.1\n" ++
        "protocol: TCP\nsize: 500 bytes\npriority: 2\n"] ∧
    lineCount (parseRecord ⟨"192.168.1.100", "192.168.1.1", "TCP", 500, 2⟩) = 6 ∧
    ¬ lineCount (parseRecord ⟨"192.168.1.100", "192.168.1.1", "TCP", 500, 2⟩) = 5 := by
  refine ⟨by decide, by decide, by decide⟩

/-- C7, amended: the record `parsePacket` writes (to `std::cout`, and to the
log file when it is open) is the heading line "parsing packet:" followed by
five lines in this order: source address, destination address, protocol,
size with " bytes" appended, priority; that is six lines, plus the newlines
contained in the three strings of the packet. -/
theorem C7_parse_record (p : Packet) (g : Globals) :
    (parsePacket p g).cout = g.cout ++
      ["parsing packet:\n" ++
        (("source ip: " ++ p.sourceIP ++ "\n") ++
         (("destination ip: " ++ p.destIP ++ "\n") ++
          (("protocol: " ++ p.protocol ++ "\n") ++
           (("size: " ++ toString p.size ++ " bytes\n") ++
            ("priority: " ++ toString p.priority ++ "\n")))))] ∧
    (parsePacket p g).logFile =
      (if g.logOpen then g.logFile ++ [parseRecord p] else g.logFile) ∧
    (parsePacket p g).cout = g.cout ++ [parseRecord p] ∧
    lineCount (parseRecord p) =
      6 + lineCount p.sourceIP + lineCount p.destIP + lineCount p.protocol := by
  refine ⟨?_, ?_, ?_, ?_⟩
  · simp only [parsePacket, parseRecord, writeLog_cout, writeCout, String.append_assoc]
  · simp only [parsePacket, writeLog_logFile, writeCout]
  · simp only [parsePacket, writeLog_cout, writeCout]
  · have h0 : lineCount "parsing packet:\n" = 1 := by decide
    have h1 : lineCount "source ip: " = 0 := by decide
    have h2 : lineCount "\n" = 1 := by decide
    have h3 : lineCount "destination ip: " = 0 := by decide
    have h4 : lineCount "protocol: " = 0 := by decide
    have h5 : lineCount "size: " = 0 := by decide
    have h6 : lineCount " bytes\n" = 1 := by decide
    have h7 : lineCount "priority: " = 0 := by decide
    simp only [parseRecord, lineCount_append, lineCount_toString_int, h0, h1, h2, h3, h4, h5,
      h6, h7]
    omega

/-- C8: `parsePacket` followed by `routePacket` leaves the routing table and
the work queue as they were: a destination without a route still has none,
and a destination with a route keeps its value. -/
theorem C8_processor_frame (p : Packet) (g : Globals) :
    (routePacket p (parsePacket p g)).routingTable = g.routingTable ∧
    (routePacket p (parsePacket p g)).packetQueue = g.packetQueue ∧
    (find g.routingTable p.destIP = none →
      find (routePacket p (parsePacket p g)).routingTable p.destIP = none) ∧
    (∀ hop, find g.routingTable p.destIP = some hop →
      find (routePacket p (parsePacket p g)).routingTable p.destIP = some hop) := by
  have ht : (parsePacket p g).routingTable = g.routingTable := by
    simp only [parsePacket, writeLog_routingTable, writeCout]
  have hq : (parsePacket p g).packetQueue = g.packetQueue := by
    simp only [parsePacket, writeLog_packetQueue, writeCout]
  have hq2 : ∀ g' : Globals, (routePacket p g').packetQueue = g'.packetQueue :=
    fun g' => routePacket_packetQueue p g'
  have e : (routePacket p (parsePacket p g)).routingTable = g.routingTable := by
    rw [routePacket_table, ht]
  refine ⟨e, by rw [hq2, hq], ?_, ?_⟩
  · intro h; rw [e]; exact h
  · intro hop h; rw [e]; exact h

/-- C8 on the fourth sample packet (no route) and the first (a route) with
the seed table and the other three packets queued. -/
theorem C8_witness_seed_table :
    find (routePacket ⟨"192.168.1.200", "10.0.0.5", "ICMP", 100, 5⟩
      (parsePacket ⟨"192.168.1.200", "10.0.0.5", "ICMP", 100, 5⟩
        ⟨pushAll samplePackets, seedTable, [], header, true⟩)).routingTable "10.0.0.5" = none ∧
    find (routePacket ⟨"192.168.1.100", "192.168.1.1", "TCP", 500, 2⟩
      (parsePacket ⟨"192.168.1.100", "192.168.1.1", "TCP", 500, 2⟩
        ⟨pushAll samplePackets, seedTable, [], header, true⟩)).routingTable "192.168.1.1" =
      some "Router A" :=
  ⟨(C8_processor_frame ⟨"192.168.1.200", "10.0.0.5", "ICMP", 100, 5⟩
      ⟨pushAll samplePackets, seedTable, [], header, true⟩).2.2.1 (by decide),
   (C8_processor_frame ⟨"192.168.1.100", "192.168.1.1", "TCP", 500, 2⟩
      ⟨pushAll samplePackets, seedTable, [], header, true⟩).2.2.2 "Router A" (by decide)⟩

/-! ## Runs and invariants -/

theorem run_invariant (P : State → Prop)
    (hstep : ∀ s t s', P s → step s t = some s' → P s') :
    ∀ (sched : List Tid) (s0 s : State), P s0 → run s0 sched = some s → P s := by
  intro sched
  induction sched with
  | nil => intro s0 s h0 h; simp only [run] at h; cases h; exact h0
  | cons t sched ih =>
    intro s0 s h0 h
    simp only [run] at h
    cases hs : step s0 t with
    | none => rw [hs] at h; cases h
    | some s1 =>
      rw [hs] at h
      exact ih s1 s (hstep s0 t s1 h0 hs) h

theorem step_elim {P : State → Prop} {s : State} {t : Tid} {s' : State}
    (h : step s t = some s')
    (hd : mainStep s = some s' → P s')
    (hw : ∀ i w, s.workers[i]? = some w → processPacketsStep s i w = some s' → P s') : P s' := by
  unfold step at h
  split at h
  · cases h
  · cases t with
    | driver => exact hd h
    | worker i =>
      simp only at h
      cases hwi : s.workers[i]? with
      | none => rw [hwi] at h; cases h
      | some w => rw [hwi] at h; exact hw i w hwi h

theorem getElem?_set_cases {ws : List WorkerPC} {i j : Nat} {w w' pc : WorkerPC}
    (hw : ws[i]? = some w) (h : (ws.set i w')[j]? = some pc) :
    (j = i ∧ pc = w') ∨ (j ≠ i ∧ ws[j]? = some pc) := by
  rw [List.getElem?_set] at h
  by_cases hij : i = j
  · subst hij
    have hlt : i < ws.length := by
      by_contra hc
      rw [List.getElem?_eq_none (by omega)] at hw
      cases hw
    simp [hlt] at h
    exact Or.inl ⟨rfl, h.symm⟩
  · rw [if_neg hij] at h
    exact Or.inr ⟨fun e => hij e.symm, h⟩

theorem pushAll_perm (packets : List Packet) : (pushAll packets).Perm packets := by
  unfold pushAll
  suffices h : ∀ (q : PQueue), (packets.foldl push q).Perm (q ++ packets) by
    simpa using h []
  induction packets with
  | nil => intro q; simp
  | cons p ps ih =>
    intro q
    simp only [List.foldl_cons]
    refine (ih (push q p)).trans ?_
    refine ((push_perm q p).append_right ps).trans ?_
    simp only [List.cons_append]
    exact (@List.perm_middle _ p q ps).symm

theorem mainPrologue_packetQueue (opened : Bool) (packets : List Packet) :
    (mainPrologue opened packets).packetQueue = pushAll packets := rfl

theorem mainPrologue_routingTable (opened : Bool) (packets : List Packet) :
    (mainPrologue opened packets).routingTable = seedTable := by
  unfold mainPrologue
  simp only [foldl_writeLog]
  split <;> rfl

theorem mainPrologue_cout (opened : Bool) (packets : List Packet) :
    (mainPrologue opened packets).cout = [] := by
  unfold mainPrologue
  simp only [foldl_writeLog]
  split <;> rfl

theorem mainPrologue_logFile (opened : Bool) (packets : List Packet) :
    (mainPrologue opened packets).logFile = if opened then header else [] := by
  unfold mainPrologue
  simp only [foldl_writeLog]
  cases opened <;> rfl

theorem mainPrologue_logOpen (opened : Bool) (packets : List Packet) :
    (mainPrologue opened packets).logOpen = opened := by
  unfold mainPrologue
  simp only [foldl_writeLog]
  cases opened <;> rfl

theorem initState_workers (n : Nat) (opened : Bool) (packets : List Packet) (i : Nat)
    (pc : WorkerPC) (h : (initState n opened packets).workers[i]? = some pc) :
    pc = WorkerPC.lock := by
  simp only [initState] at h
  rw [List.getElem?_replicate] at h
  split at h
  · cases h; rfl
  · cases h

theorem inv_init (n : Nat) (opened : Bool) (packets : List Packet) :
    Inv packets (initState n opened packets) := by
  refine ⟨?_, ?_, ?_, ?_, ?_, ?_, ?_⟩
  · intro i pc h
    rw [initState_workers n opened packets i pc h]
    simp [WorkerPC.holdsMutex, initState]
  · simp [DriverPC.holdsMutex, initState]
  · show HeapInv (pushAll packets)
    have := runOps_heapInv (packets.map QOp.push)
    unfold runOps at this
    rw [List.foldl_map] at this
    exact this
  · intro i p h
    have := initState_workers n opened packets i _ h
    cases this
  · show ([] ++ pushAll packets).Perm packets
    rw [List.nil_append]
    exact pushAll_perm packets
  · exact mainPrologue_routingTable opened packets
  · intro i p h
    have := initState_workers n opened packets i _ h
    cases this

/-! ### Preservation of the invariant -/

theorem find_assign_isSome (t : RoutingTable) (d r k : String)
    (h : (find t k).isSome = true) : (find (assign t d r) k).isSome = true := by
  by_cases hk : k = d
  · subst hk; rw [find_assign_same]; rfl
  · rw [find_assign_other _ _ _ _ hk]; exact h

theorem workerMutex_same {s : State} {i : Nat} {w w' : WorkerPC}
    (hw : s.workers[i]? = some w) (hh : w'.holdsMutex = w.holdsMutex)
    (hinv : ∀ (j : Nat) (pc : WorkerPC), s.workers[j]? = some pc →
      (pc.holdsMutex = true ↔ s.packetQueueMutex = some (.worker j))) :
    ∀ (j : Nat) (pc : WorkerPC), (s.workers.set i w')[j]? = some pc →
      (pc.holdsMutex = true ↔ s.packetQueueMutex = some (.worker j)) := by
  intro j pc hj
  rcases getElem?_set_cases hw hj with ⟨rfl, rfl⟩ | ⟨_, hj'⟩
  · rw [hh]; exact hinv j w hw
  · exact hinv j pc hj'

theorem workerMutex_acquire {s : State} {i : Nat} {w w' : WorkerPC}
    (hw : s.workers[i]? = some w) (hh : w'.holdsMutex = true) (hm : s.packetQueueMutex = none)
    (hinv : ∀ (j : Nat) (pc : WorkerPC), s.workers[j]? = some pc →
      (pc.holdsMutex = true ↔ s.packetQueueMutex = some (.worker j))) :
    ∀ (j : Nat) (pc : WorkerPC), (s.workers.set i w')[j]? = some pc →
      (pc.holdsMutex = true ↔ some (Tid.worker i) = some (Tid.worker j)) := by
  intro j pc hj
  rcases getElem?_set_cases hw hj with ⟨rfl, rfl⟩ | ⟨hne, hj'⟩
  · simp [hh]
  · have := hinv j pc hj'
    rw [hm] at this
    constructor
    · intro h; exact absurd (this.mp h) (by simp)
    · intro h; injection h with h; injection h with h; exact absurd h.symm hne

theorem workerMutex_release {s : State} {i : Nat} {w w' : WorkerPC}
    (hw : s.workers[i]? = some w) (hh : w'.holdsMutex = false) (hm : w.holdsMutex = true)
    (hinv : ∀ (j : Nat) (pc : WorkerPC), s.workers[j]? = some pc →
      (pc.holdsMutex = true ↔ s.packetQueueMutex = some (.worker j))) :
    ∀ (j : Nat) (pc : WorkerPC), (s.workers.set i w')[j]? = some pc →
      (pc.holdsMutex = true ↔ (none : Option Tid) = some (Tid.worker j)) := by
  have hmi : s.packetQueueMutex = some (.worker i) := (hinv i w hw).mp hm
  intro j pc hj
  rcases getElem?_set_cases hw hj with ⟨rfl, rfl⟩ | ⟨hne, hj'⟩
  · simp [hh]
  · have := hinv j pc hj'
    rw [hmi] at this
    constructor
    · intro h
      have := this.mp h
      injection this with h2; injection h2 with h2; exact absurd h2.symm hne
    · intro h; cases h

theorem atPop_same {s : State} {i : Nat} {w w' : WorkerPC} {q : PQueue}
    (hw : s.workers[i]? = some w) (hn : ∀ p, w' ≠ WorkerPC.pop p)
    (hinv : ∀ (j : Nat) (p : Packet), s.workers[j]? = some (WorkerPC.pop p) →
      q ≠ [] ∧ top q = p) :
    ∀ (j : Nat) (p : Packet), (s.workers.set i w')[j]? = some (WorkerPC.pop p) →
      q ≠ [] ∧ top q = p := by
  intro j p hj
  rcases getElem?_set_cases hw hj with ⟨rfl, h⟩ | ⟨_, hj'⟩
  · exact absurd h.symm (hn p)
  · exact hinv j p hj'

theorem atIndex_same {s : State} {i : Nat} {w w' : WorkerPC} {t : RoutingTable}
    (hw : s.workers[i]? = some w) (hn : ∀ p, w' ≠ WorkerPC.index p)
    (hinv : ∀ (j : Nat) (p : Packet), s.workers[j]? = some (WorkerPC.index p) →
      (find t p.destIP).isSome = true) :
    ∀ (j : Nat) (p : Packet), (s.workers.set i w')[j]? = some (WorkerPC.index p) →
      (find t p.destIP).isSome = true := by
  intro j p hj
  rcases getElem?_set_cases hw hj with ⟨rfl, h⟩ | ⟨_, hj'⟩
  · exact absurd h.symm (hn p)
  · exact hinv j p hj'

theorem nextInsertion_holdsMutex (k : Fin 5) (next : Fin 5 → DriverPC) (done : DriverPC)
    (hn : ∀ j, (next j).holdsMutex = true) (hd : done.holdsMutex = true) :
    (nextInsertion k next done).holdsMutex = true := by
  unfold nextInsertion
  split
  · exact hn _
  · exact hd

theorem nextInsertion_tableOf (k : Fin 5) (next : Fin 5 → DriverPC) (done : DriverPC)
    (hn : ∀ j, (next j).tableOf = updatedTable) (hd : done.tableOf = updatedTable) :
    (nextInsertion k next done).tableOf = updatedTable := by
  unfold nextInsertion
  split
  · exact hn _
  · exact hd

theorem inv_mainStep (packets : List Packet) (s s' : State) (hinv : Inv packets s)
    (h : mainStep s = some s') : Inv packets s' := by
  obtain ⟨hwm, hdm, hheap, hpop, hcons, htab, hidx⟩ := hinv
  unfold mainStep at h
  split at h
  · rename_i hd
    split at h
    · rename_i hm
      cases h
      refine ⟨?_, ?_, hheap, hpop, hcons, ?_, hidx⟩
      · intro j pc hj
        have := hwm j pc hj
        rw [hm] at this
        simp only [this]
        simp
      · simp [DriverPC.holdsMutex]
      · simp only [htab, hd, DriverPC.tableOf]
    · cases h
  · rename_i hd
    cases h
    rw [hd] at htab hdm
    refine ⟨hwm, ?_, hheap, hpop, hcons, ?_, ?_⟩
    · simpa [DriverPC.holdsMutex] using hdm
    · simp only [DriverPC.tableOf, htab, insertedTable]
    · intro j p hj
      have hk := hidx j p hj
      show (find (index s.g.routingTable updDest).2 p.destIP).isSome = true
      unfold index
      split
      · exact hk
      · exact find_assign_isSome _ _ _ _ hk
  · rename_i hd
    cases h
    rw [hd] at htab hdm
    refine ⟨hwm, ?_, hheap, hpop, hcons, ?_, ?_⟩
    · simpa [DriverPC.holdsMutex] using hdm
    · simp only [DriverPC.tableOf, htab, updatedTable]
    · intro j p hj
      exact find_assign_isSome _ _ _ _ (hidx j p hj)
  · rename_i k hd
    cases h
    rw [hd] at htab hdm
    refine ⟨hwm, ?_, hheap, hpop, hcons, ?_, hidx⟩
    · have : (nextInsertion k DriverPC.updCout (DriverPC.updLog 0)).holdsMutex = true :=
        nextInsertion_holdsMutex k _ _ (fun _ => rfl) rfl
      simp only [this, true_iff]
      exact hdm.mp rfl
    · show s.g.routingTable = _
      rw [nextInsertion_tableOf k DriverPC.updCout (DriverPC.updLog 0) (fun _ => rfl) rfl]
      exact htab
  · rename_i k hd
    cases h
    rw [hd] at htab hdm
    exact ⟨hwm, by simpa [DriverPC.holdsMutex] using hdm, hheap, hpop, hcons,
      by simpa [DriverPC.tableOf] using htab, hidx⟩
  · rename_i k pos hd
    cases h
    rw [hd] at htab hdm
    refine ⟨hwm, ?_, ?_, ?_, ?_, ?_, ?_⟩
    · have : (nextInsertion k DriverPC.updLog DriverPC.updUnlock).holdsMutex = true :=
        nextInsertion_holdsMutex k _ _ (fun _ => rfl) rfl
      simp only [this, true_iff]
      exact hdm.mp rfl
    · simpa only [storeLog_packetQueue] using hheap
    · simpa only [storeLog_packetQueue] using hpop
    · simpa only [storeLog_packetQueue] using hcons
    · show (storeLog s.g pos (updPiece k)).routingTable = _
      rw [nextInsertion_tableOf k DriverPC.updLog DriverPC.updUnlock (fun _ => rfl) rfl,
        storeLog_routingTable]
      exact htab
    · simpa only [storeLog_routingTable] using hidx
  · rename_i hd
    cases h
    rw [hd] at htab hdm
    have hm : s.packetQueueMutex = some .driver := hdm.mp rfl
    refine ⟨?_, by simp [DriverPC.holdsMutex], hheap, hpop, hcons,
      by simpa [DriverPC.tableOf] using htab, hidx⟩
    intro j pc hj
    have := hwm j pc hj
    rw [hm] at this
    simp only [this]
    simp
  · rename_i hd
    cases h
    rw [hd] at htab hdm
    exact ⟨hwm, by simpa [DriverPC.holdsMutex] using hdm, hheap, hpop, hcons,
      by simpa [DriverPC.tableOf] using htab, hidx⟩
  · rename_i hd
    cases h
    rw [hd] at htab hdm
    exact ⟨hwm, by simpa [DriverPC.holdsMutex] using hdm, hheap, hpop, hcons,
      by simpa [DriverPC.tableOf, writeCout] using htab, hidx⟩
  · rename_i hd
    cases h
    rw [hd] at htab hdm
    exact ⟨hwm, by simpa [DriverPC.holdsMutex] using hdm, hheap, hpop, hcons,
      by simpa [DriverPC.tableOf] using htab, hidx⟩
  · cases h

theorem inv_processPacketsStep (packets : List Packet) (s s' : State) (i : Nat) (w : WorkerPC)
    (hinv : Inv packets s) (hw : s.workers[i]? = some w)
    (h : processPacketsStep s i w = some s') : Inv packets s' := by
  obtain ⟨hwm, hdm, hheap, hpop, hcons, htab, hidx⟩ := hinv
  cases w with
  | lock =>
    simp only [processPacketsStep] at h
    split at h
    · rename_i hm
      cases h
      refine ⟨workerMutex_acquire hw rfl hm hwm, ?_, hheap,
        atPop_same hw (by intro p; simp) hpop, hcons, htab,
        atIndex_same hw (by intro p; simp) hidx⟩
      rw [hm] at hdm
      simp only [setWorker]
      constructor
      · intro hh; exact absurd (hdm.mp hh) (by simp)
      · intro hh; cases hh
    · cases h
  | test =>
    simp only [processPacketsStep] at h
    split at h
    · rename_i hne
      cases h
      refine ⟨workerMutex_same hw rfl hwm, hdm, hheap, ?_, hcons, htab,
        atIndex_same hw (by intro p; simp) hidx⟩
      intro j p hj
      rcases getElem?_set_cases hw hj with ⟨rfl, hp⟩ | ⟨_, hj'⟩
      · injection hp with hp
        refine ⟨?_, hp.symm⟩
        intro h0
        have h1 : s.g.packetQueue = [] := h0
        rw [h1] at hne
        simp [empty] at hne
      · exact hpop j p hj'
    · cases h
      exact ⟨workerMutex_same hw rfl hwm, hdm, hheap,
        atPop_same hw (by intro p; simp) hpop, hcons, htab,
        atIndex_same hw (by intro p; simp) hidx⟩
  | pop p =>
    simp only [processPacketsStep] at h
    cases h
    have hmi : s.packetQueueMutex = some (.worker i) := (hwm i _ hw).mp rfl
    obtain ⟨hne, htop⟩ := hpop i p hw
    refine ⟨workerMutex_same hw rfl hwm, hdm, pop_heapInv _ hheap, ?_, ?_, htab,
      atIndex_same hw (by intro p; simp) hidx⟩
    · intro j p' hj
      rcases getElem?_set_cases hw hj with ⟨rfl, hp⟩ | ⟨hji, hj'⟩
      · cases hp
      · have := (hwm j _ hj').mp rfl
        rw [hmi] at this
        injection this with h2; injection h2 with h2
        exact absurd h2.symm hji
    · show ((s.dequeued ++ [p]) ++ pop s.g.packetQueue).Perm packets
      refine List.Perm.trans ?_ hcons
      rw [List.append_assoc]
      apply List.Perm.append_left
      have := top_pop_perm s.g.packetQueue hne
      rw [htop] at this
      exact this
  | unlock p =>
    simp only [processPacketsStep] at h
    cases h
    have hmi : s.packetQueueMutex = some (.worker i) := (hwm i _ hw).mp rfl
    refine ⟨workerMutex_release hw rfl rfl hwm, ?_, hheap,
      atPop_same hw (by intro p; simp) hpop, hcons, htab,
      atIndex_same hw (by intro p; simp) hidx⟩
    rw [hmi] at hdm
    simp only [setWorker]
    constructor
    · intro hh; exact absurd (hdm.mp hh) (by simp)
    · intro hh; cases hh
  | unlockEmpty =>
    simp only [processPacketsStep] at h
    cases h
    have hmi : s.packetQueueMutex = some (.worker i) := (hwm i _ hw).mp rfl
    refine ⟨workerMutex_release hw rfl rfl hwm, ?_, hheap,
      atPop_same hw (by intro p; simp) hpop, hcons, htab,
      atIndex_same hw (by intro p; simp) hidx⟩
    rw [hmi] at hdm
    simp only [setWorker]
    constructor
    · intro hh; exact absurd (hdm.mp hh) (by simp)
    · intro hh; cases hh
  | parseCout p =>
    simp only [processPacketsStep] at h
    cases h
    exact ⟨workerMutex_same hw rfl hwm, hdm, hheap,
      atPop_same hw (by intro p; simp) hpop, hcons, htab,
      atIndex_same hw (by intro p; simp) hidx⟩
  | parseLog p =>
    simp only [processPacketsStep] at h
    cases h
    exact ⟨workerMutex_same hw rfl hwm, hdm, hheap,
      atPop_same hw (by intro p; simp) hpop, hcons, htab,
      atIndex_same hw (by intro p; simp) hidx⟩
  | parseLogStore p pos =>
    simp only [processPacketsStep] at h
    cases h
    refine ⟨workerMutex_same hw rfl hwm, hdm, ?_, ?_, ?_, ?_, ?_⟩
    · simpa only [setWorker, storeLog_packetQueue] using hheap
    · simpa only [setWorker, storeLog_packetQueue] using atPop_same hw (by intro p; simp) hpop
    · simpa only [setWorker, storeLog_packetQueue] using hcons
    · simpa only [setWorker, storeLog_routingTable] using htab
    · simpa only [setWorker, storeLog_routingTable] using
        atIndex_same hw (by intro p; simp) hidx
  | find p =>
    simp only [processPacketsStep] at h
    split at h
    · rename_i hf
      cases h
      refine ⟨workerMutex_same hw rfl hwm, hdm, hheap,
        atPop_same hw (by intro p; simp) hpop, hcons, htab, ?_⟩
      intro j p' hj
      rcases getElem?_set_cases hw hj with ⟨rfl, hp⟩ | ⟨_, hj'⟩
      · injection hp with hp
        subst hp
        exact hf
      · exact hidx j p' hj'
    · cases h
      exact ⟨workerMutex_same hw rfl hwm, hdm, hheap,
        atPop_same hw (by intro p; simp) hpop, hcons, htab,
        atIndex_same hw (by intro p; simp) hidx⟩
  | index p =>
    simp only [processPacketsStep] at h
    cases h
    have hk := hidx i p hw
    have e : (index s.g.routingTable p.destIP).2 = s.g.routingTable := by
      rw [index_of_hit _ _ hk]
    refine ⟨workerMutex_same hw rfl hwm, hdm, hheap,
      atPop_same hw (by intro p; simp) hpop, hcons, ?_, ?_⟩
    · simp only [setWorker, e]; exact htab
    · simp only [setWorker, e]
      exact atIndex_same hw (by intro p; simp) hidx
  | routeCout p r =>
    simp only [processPacketsStep] at h
    cases h
    exact ⟨workerMutex_same hw rfl hwm, hdm, hheap,
      atPop_same hw (by intro p; simp) hpop, hcons, htab,
      atIndex_same hw (by intro p; simp) hidx⟩
  | routeLog p r =>
    simp only [processPacketsStep] at h
    cases h
    exact ⟨workerMutex_same hw rfl hwm, hdm, hheap,
      atPop_same hw (by intro p; simp) hpop, hcons, htab,
      atIndex_same hw (by intro p; simp) hidx⟩
  | routeLogStore p r pos =>
    simp only [processPacketsStep] at h
    cases h
    refine ⟨workerMutex_same hw rfl hwm, hdm, ?_, ?_, ?_, ?_, ?_⟩
    · simpa only [setWorker, storeLog_packetQueue] using hheap
    · simpa only [setWorker, storeLog_packetQueue] using atPop_same hw (by intro p; simp) hpop
    · simpa only [setWorker, storeLog_packetQueue] using hcons
    · simpa only [setWorker, storeLog_routingTable] using htab
    · simpa only [setWorker, storeLog_routingTable] using
        atIndex_same hw (by intro p; simp) hidx

theorem inv_step (packets : List Packet) (s : State) (t : Tid) (s' : State)
    (hinv : Inv packets s) (h : step s t = some s') : Inv packets s' :=
  step_elim h (fun hd => inv_mainStep packets s s' hinv hd)
    (fun i w hw hws => inv_processPacketsStep packets s s' i w hinv hw hws)

theorem inv_run (n : Nat) (opened : Bool) (packets : List Packet) (sched : List Tid)
    (s : State) (h : run (initState n opened packets) sched = some s) : Inv packets s :=
  run_invariant (Inv packets) (inv_step packets) sched _ s (inv_init n opened packets) h

/-! ### The invariant of standard output -/

theorem flatMap_set_add {α : Type} (f : WorkerPC → List α) :
    ∀ (ws : List WorkerPC) (i : Nat) (w w' : WorkerPC), ws[i]? = some w →
      (↑((ws.set i w').flatMap f) + ↑(f w) : Multiset α) = ↑(ws.flatMap f) + ↑(f w') := by
  intro ws
  induction ws with
  | nil => intro i w w' h; simp at h
  | cons a t ih =>
    intro i w w' h
    cases i with
    | zero =>
      simp only [List.getElem?_cons_zero, Option.some.injEq] at h
      subst h
      simp only [List.set_cons_zero, List.flatMap_cons, ← Multiset.coe_add]
      abel
    | succ k =>
      simp only [List.getElem?_cons_succ] at h
      have := ih k w w' h
      simp only [List.set_cons_succ, List.flatMap_cons, ← Multiset.coe_add]
      rw [add_assoc, this]
      abel

theorem multiset_step {α : Type} (a b m m' fw fw' x y : Multiset α)
    (h0 : a + m = b) (hk : m' + fw = m + fw') (hf : y + fw' = fw + x) :
    a + y + m' = b + x := by
  have key : a + y + m' + fw = b + x + fw :=
    calc a + y + m' + fw = a + y + (m' + fw) := by abel
      _ = a + y + (m + fw') := by rw [hk]
      _ = (a + m) + (y + fw') := by abel
      _ = b + (fw + x) := by rw [h0, hf]
      _ = b + x + fw := by abel
  exact add_right_cancel key


/-- Preservation of the invariant by a worker step, in general form: the
step appends `c` to `std::cout` and `h` to the dequeued packets, and moves
the packets `e` to the processed ones. -/
theorem logInv_worker {D : List (Packet × String)} {s s' : State} {i : Nat}
    {w w' : WorkerPC} (e : List (Packet × String)) (c : List String) (h : List Packet)
    (hinv : LogInv D s) (hw : s.workers[i]? = some w)
    (hws : s'.workers = s.workers.set i w') (hdr : s'.driver = s.driver)
    (hc : s'.g.cout = s.g.cout ++ c)
    (hdq : s'.dequeued = s.dequeued ++ h)
    (hheld : (↑(e.map Prod.fst) + ↑w'.held : Multiset Packet) = ↑w.held + ↑h)
    (hcp : (↑(e.flatMap recordsOf) + ↑w'.coutPart : Multiset String) = ↑w.coutPart + ↑c)
    (hsub : w.coutPart.Sublist s.g.cout → w'.coutPart.Sublist (s.g.cout ++ c))
    (hok : w.RouteOk → w'.RouteOk)
    (hdone : w.coutPart.Sublist s.g.cout → w.RouteOk →
      ∀ d ∈ e, RouteRecordOf d.1 d.2 ∧ (recordsOf d).Sublist (s.g.cout ++ c)) :
    LogInv (D ++ e) s' := by
  obtain ⟨iheld, icout, iorder, ipart, idrv⟩ := hinv
  refine ⟨?_, ?_, ?_, ?_, ?_⟩
  · rw [hws, hdq, List.map_append, ← Multiset.coe_add, ← Multiset.coe_add]
    have := multiset_step _ _ _ _ _ _ _ _ iheld
      (flatMap_set_add WorkerPC.held s.workers i w w' hw) hheld
    rw [← this]
  · rw [hws, hdr, hc, List.flatMap_append, ← Multiset.coe_add, ← Multiset.coe_add]
    have := multiset_step _ _ _ _ _ _ _ _ icout
      (flatMap_set_add WorkerPC.coutPart s.workers i w w' hw) hcp
    rw [← this]
    abel
  · intro d hd
    rw [hc]
    rcases List.mem_append.mp hd with hd | hd
    · exact ⟨(iorder d hd).1, (iorder d hd).2.trans (List.sublist_append_left _ _)⟩
    · exact hdone (ipart i w hw).1 (ipart i w hw).2 d hd
  · intro j pc hj
    rw [hws] at hj
    rw [hc]
    rcases getElem?_set_cases hw hj with ⟨rfl, rfl⟩ | ⟨_, hj'⟩
    · exact ⟨hsub (ipart j w hw).1, hok (ipart j w hw).2⟩
    · exact ⟨(ipart j pc hj').1.trans (List.sublist_append_left _ _), (ipart j pc hj').2⟩
  · rw [hdr, hc]
    exact idrv.trans (List.sublist_append_left _ _)

theorem routeRecordOf_tableOf (p : Packet) (d : DriverPC) :
    RouteRecordOf p (routeRecord p (find d.tableOf p.destIP)) := by
  cases d <;> simp [RouteRecordOf, DriverPC.tableOf]

theorem logInv_processPacketsStep (packets : List Packet) (s s' : State) (i : Nat)
    (w : WorkerPC) (D : List (Packet × String)) (hI : Inv packets s) (hinv : LogInv D s)
    (hw : s.workers[i]? = some w) (h : processPacketsStep s i w = some s') :
    ∃ D', LogInv D' s' := by
  cases w with
  | lock =>
    simp only [processPacketsStep] at h
    split at h
    · cases h
      exact ⟨_, logInv_worker [] [] [] hinv hw rfl rfl (by simp [setWorker])
        (by simp [setWorker]) (by simp [WorkerPC.held])
        (by simp [WorkerPC.coutPart])
        (by simp [WorkerPC.coutPart]) (by simp [WorkerPC.RouteOk]) (by simp)⟩
    · cases h
  | test =>
    simp only [processPacketsStep] at h
    split at h
    · cases h
      exact ⟨_, logInv_worker [] [] [] hinv hw rfl rfl (by simp [setWorker])
        (by simp [setWorker]) (by simp [WorkerPC.held])
        (by simp [WorkerPC.coutPart])
        (by simp [WorkerPC.coutPart]) (by simp [WorkerPC.RouteOk]) (by simp)⟩
    · cases h
      exact ⟨_, logInv_worker [] [] [] hinv hw rfl rfl (by simp [setWorker])
        (by simp [setWorker]) (by simp [WorkerPC.held])
        (by simp [WorkerPC.coutPart])
        (by simp [WorkerPC.coutPart]) (by simp [WorkerPC.RouteOk]) (by simp)⟩
  | pop p =>
    simp only [processPacketsStep] at h
    cases h
    exact ⟨_, logInv_worker [] [] [p] hinv hw rfl rfl (by simp [setWorker])
      (by simp [setWorker]) (by simp [WorkerPC.held])
      (by simp [WorkerPC.coutPart])
      (by simp [WorkerPC.coutPart]) (by simp [WorkerPC.RouteOk]) (by simp)⟩
  | unlock p =>
    simp only [processPacketsStep] at h
    cases h
    exact ⟨_, logInv_worker [] [] [] hinv hw rfl rfl (by simp [setWorker])
      (by simp [setWorker]) (by simp [WorkerPC.held])
      (by simp [WorkerPC.coutPart])
      (by simp [WorkerPC.coutPart]) (by simp [WorkerPC.RouteOk]) (by simp)⟩
  | unlockEmpty =>
    simp only [processPacketsStep] at h
    cases h
    exact ⟨_, logInv_worker [] [] [] hinv hw rfl rfl (by simp [setWorker])
      (by simp [setWorker]) (by simp [WorkerPC.held])
      (by simp [WorkerPC.coutPart])
      (by simp [WorkerPC.coutPart]) (by simp [WorkerPC.RouteOk]) (by simp)⟩
  | parseCout p =>
    simp only [processPacketsStep] at h
    cases h
    exact ⟨_, logInv_worker [] [parseRecord p] [] hinv hw rfl rfl
      (by simp [setWorker, writeCout])
      (by simp [setWorker]) (by simp [WorkerPC.held])
      (by simp [WorkerPC.coutPart])
      (by simp [WorkerPC.coutPart]) (by simp [WorkerPC.RouteOk]) (by simp)⟩
  | parseLog p =>
    simp only [processPacketsStep] at h
    cases h
    exact ⟨_, logInv_worker [] [] [] hinv hw rfl rfl (by simp [setWorker])
      (by simp [setWorker]) (by simp [WorkerPC.held])
      (by simp [WorkerPC.coutPart])
      (by simp [WorkerPC.coutPart]) (by simp [WorkerPC.RouteOk]) (by simp)⟩
  | parseLogStore p pos =>
    simp only [processPacketsStep] at h
    cases h
    exact ⟨_, logInv_worker [] [] [] hinv hw rfl rfl
      (by simp [setWorker, storeLog_cout])
      (by simp [setWorker]) (by simp [WorkerPC.held])
      (by simp [WorkerPC.coutPart])
      (by simp [WorkerPC.coutPart]) (by simp [WorkerPC.RouteOk]) (by simp)⟩
  | find p =>
    simp only [processPacketsStep] at h
    split at h
    · cases h
      exact ⟨_, logInv_worker [] [] [] hinv hw rfl rfl (by simp [setWorker])
        (by simp [setWorker]) (by simp [WorkerPC.held])
        (by simp [WorkerPC.coutPart])
        (by simp [WorkerPC.coutPart]) (by simp [WorkerPC.RouteOk]) (by simp)⟩
    · rename_i hf
      cases h
      have hnone : find s.g.routingTable p.destIP = none := by
        cases hx : find s.g.routingTable p.destIP with
        | none => rfl
        | some v => rw [hx] at hf; simp at hf
      have hok := routeRecordOf_tableOf p s.driver
      rw [← hI.table, hnone] at hok
      exact ⟨_, logInv_worker [] [] [] hinv hw rfl rfl (by simp [setWorker])
        (by simp [setWorker]) (by simp [WorkerPC.held])
        (by simp [WorkerPC.coutPart])
        (by simp [WorkerPC.coutPart]) (fun _ => hok) (by simp)⟩
  | index p =>
    simp only [processPacketsStep] at h
    cases h
    have hk := hI.atIndex i p hw
    have hok := routeRecordOf_tableOf p s.driver
    rw [← hI.table] at hok
    have e1 : (index s.g.routingTable p.destIP).1 = (find s.g.routingTable p.destIP).getD "" := by
      rw [index_of_hit _ _ hk]
    have e2 : routeHit p (index s.g.routingTable p.destIP).1 =
        routeRecord p (find s.g.routingTable p.destIP) := by
      rw [e1]
      cases hx : find s.g.routingTable p.destIP with
      | none => rw [hx] at hk; cases hk
      | some v => rfl
    rw [← e2] at hok
    exact ⟨_, logInv_worker [] [] [] hinv hw rfl rfl (by simp [setWorker])
      (by simp [setWorker]) (by simp [WorkerPC.held])
      (by simp [WorkerPC.coutPart])
      (by simp [WorkerPC.coutPart]) (fun _ => hok) (by simp)⟩
  | routeCout p r =>
    simp only [processPacketsStep] at h
    cases h
    exact ⟨_, logInv_worker [] [r] [] hinv hw rfl rfl
      (by simp [setWorker, writeCout])
      (by simp [setWorker]) (by simp [WorkerPC.held])
      (by simp [WorkerPC.coutPart]; rfl)
      (fun hs => List.Sublist.append hs (List.Sublist.refl [r]))
      (by simp [WorkerPC.RouteOk]) (by simp)⟩
  | routeLog p r =>
    simp only [processPacketsStep] at h
    cases h
    exact ⟨_, logInv_worker [] [] [] hinv hw rfl rfl (by simp [setWorker])
      (by simp [setWorker]) (by simp [WorkerPC.held])
      (by simp [WorkerPC.coutPart])
      (by simp [WorkerPC.coutPart]) (by simp [WorkerPC.RouteOk]) (by simp)⟩
  | routeLogStore p r pos =>
    simp only [processPacketsStep] at h
    cases h
    exact ⟨_, logInv_worker [(p, r)] [] [] hinv hw rfl rfl
      (by simp [setWorker, storeLog_cout])
      (by simp [setWorker]) (by simp [WorkerPC.held])
      (by simp [WorkerPC.coutPart, recordsOf])
      (by simp [WorkerPC.coutPart]) (by simp [WorkerPC.RouteOk])
      (by simp [WorkerPC.coutPart, WorkerPC.RouteOk, recordsOf]; tauto)⟩

/-- Preservation of the invariant by a step of the main thread that appends
`c` to `std::cout`. -/
theorem logInv_driver {D : List (Packet × String)} {s s' : State} (c : List String)
    (hinv : LogInv D s)
    (hws : s'.workers = s.workers) (hdq : s'.dequeued = s.dequeued)
    (hc : s'.g.cout = s.g.cout ++ c)
    (hcp : s'.driver.coutPart = s.driver.coutPart ++ c) : LogInv D s' := by
  obtain ⟨iheld, icout, iorder, ipart, idrv⟩ := hinv
  refine ⟨?_, ?_, ?_, ?_, ?_⟩
  · rw [hws, hdq]; exact iheld
  · rw [hws, hc, hcp, ← Multiset.coe_add, ← Multiset.coe_add, ← icout]
    abel
  · intro d hd
    rw [hc]
    exact ⟨(iorder d hd).1, (iorder d hd).2.trans (List.sublist_append_left _ _)⟩
  · intro j pc hj
    rw [hws] at hj
    rw [hc]
    exact ⟨(ipart j pc hj).1.trans (List.sublist_append_left _ _), (ipart j pc hj).2⟩
  · rw [hc, hcp]
    exact List.Sublist.append idrv (List.Sublist.refl c)

theorem coutPart_after_updCout (k : Fin 5) :
    (nextInsertion k DriverPC.updCout (DriverPC.updLog 0)).coutPart =
      (DriverPC.updCout k).coutPart ++ [updPiece k] := by
  fin_cases k <;> rfl

theorem coutPart_after_updLogStore (k : Fin 5) :
    (nextInsertion k DriverPC.updLog DriverPC.updUnlock).coutPart =
      updatePieces updDest updRouter := by
  fin_cases k <;> rfl

theorem logInv_mainStep (s s' : State) (D : List (Packet × String)) (hinv : LogInv D s)
    (h : mainStep s = some s') : LogInv D s' := by
  unfold mainStep at h
  split at h
  · split at h
    · rename_i hd _ _
      cases h
      exact logInv_driver [] hinv rfl rfl (by simp) (by simp [hd, DriverPC.coutPart])
    · cases h
  · rename_i hd
    cases h
    exact logInv_driver [] hinv rfl rfl (by simp) (by simp [hd, DriverPC.coutPart])
  · rename_i hd
    cases h
    exact logInv_driver [] hinv rfl rfl (by simp) (by simp [hd, DriverPC.coutPart])
  · rename_i k hd
    cases h
    exact logInv_driver [updPiece k] hinv rfl rfl (by simp [writeCout])
      (by rw [hd]; exact coutPart_after_updCout k)
  · rename_i k hd
    cases h
    exact logInv_driver [] hinv rfl rfl (by simp) (by simp [hd, DriverPC.coutPart])
  · rename_i k pos hd
    cases h
    exact logInv_driver [] hinv rfl rfl (by simp [storeLog_cout])
      (by rw [hd, List.append_nil]; exact coutPart_after_updLogStore k)
  · rename_i hd
    cases h
    exact logInv_driver [] hinv rfl rfl (by simp) (by simp [hd, DriverPC.coutPart])
  · rename_i hd
    cases h
    exact logInv_driver [] hinv rfl rfl (by simp) (by simp [hd, DriverPC.coutPart])
  · rename_i hd
    cases h
    exact logInv_driver [closingMessage] hinv rfl rfl (by simp [writeCout])
      (by simp [hd, DriverPC.coutPart])
  · rename_i hd
    cases h
    exact logInv_driver [] hinv rfl rfl (by simp) (by simp [hd, DriverPC.coutPart])
  · cases h

theorem logInv_init (n : Nat) (opened : Bool) (packets : List Packet) :
    LogInv [] (initState n opened packets) := by
  have hflat : ∀ {α : Type} (f : WorkerPC → List α), f WorkerPC.lock = [] →
      (List.replicate n WorkerPC.lock).flatMap f = [] := by
    intro α f hf
    induction n with
    | zero => rfl
    | succ k ih => simp [List.replicate_succ, hf, ih]
  refine ⟨?_, ?_, ?_, ?_, ?_⟩
  · simp [initState, hflat WorkerPC.held rfl]
  · simp [initState, hflat WorkerPC.coutPart rfl, DriverPC.coutPart, mainPrologue_cout]
  · intro d hd; cases hd
  · intro i w h
    rw [initState_workers n opened packets i w h]
    simp [WorkerPC.coutPart, WorkerPC.RouteOk]
  · simp [initState, DriverPC.coutPart]

/-- Both invariants hold in every state of every run. -/
theorem invs_run (n : Nat) (opened : Bool) (packets : List Packet) (sched : List Tid)
    (s : State) (h : run (initState n opened packets) sched = some s) :
    Inv packets s ∧ ∃ D, LogInv D s := by
  refine run_invariant (fun s => Inv packets s ∧ ∃ D, LogInv D s) ?_ sched _ s
    ⟨inv_init n opened packets, [], logInv_init n opened packets⟩ h
  intro s t s' hP hs
  obtain ⟨hI, D, hL⟩ := hP
  refine ⟨inv_step packets s t s' hI hs, ?_⟩
  exact @step_elim (fun x => ∃ D, LogInv D x) s t s' hs
    (fun hd => ⟨D, logInv_mainStep s s' D hL hd⟩)
    (fun i w hw hws => logInv_processPacketsStep packets s s' i w D hI hL hw hws)

/-! ### The functions and the steps agree

A thread that runs one of the three logging functions without another thread
taking a step in between changes the global variables as the function does. -/

theorem getElem?_set_self_of_some {ws : List WorkerPC} {i : Nat} {w : WorkerPC}
    (w' : WorkerPC) (hw : ws[i]? = some w) : (ws.set i w')[i]? = some w' := by
  have hlt : i < ws.length := by
    by_contra hc
    rw [List.getElem?_eq_none (by omega)] at hw
    cases hw
  rw [List.getElem?_set]
  simp [hlt]

theorem step_worker_eq (s : State) (i : Nat) (w : WorkerPC)
    (hd : s.driver ≠ DriverPC.exited) (hw : s.workers[i]? = some w) :
    step s (Tid.worker i) = processPacketsStep s i w := by
  unfold step
  rw [if_neg hd]
  simp only [hw]

theorem run_cons_worker (s s1 : State) (i : Nat) (w : WorkerPC) (rest : List Tid)
    (hd : s.driver ≠ DriverPC.exited) (hw : s.workers[i]? = some w)
    (h1 : processPacketsStep s i w = some s1) :
    run s (Tid.worker i :: rest) = run s1 rest := by
  simp only [run]
  rw [step_worker_eq s i w hd hw, h1]

/-- A worker that has dequeued `p` and runs `parsePacket(p); routePacket(p)`
alone (seven steps on a miss, eight on a hit) changes the global variables as
the two functions do, and is back at the head of its loop. -/
theorem worker_processes_like_functions (s : State) (i : Nat) (p : Packet)
    (hd : s.driver ≠ DriverPC.exited) (hw : s.workers[i]? = some (WorkerPC.parseCout p)) :
    run s (steps (Tid.worker i)
        (if (find s.g.routingTable p.destIP).isSome then 8 else 7)) =
      some { s with
        g := routePacket p (parsePacket p s.g)
        workers := s.workers.set i WorkerPC.lock } := by
  have hself : ∀ w', (s.workers.set i w')[i]? = some w' :=
    fun w' => getElem?_set_self_of_some w' hw
  have hrt : (parsePacket p s.g).routingTable = s.g.routingTable := by
    simp only [parsePacket, writeLog_routingTable, writeCout]
  have e1 : ∀ rest, run s (Tid.worker i :: rest) =
      run { s with g := writeCout s.g (parseRecord p)
                   workers := s.workers.set i (WorkerPC.parseLog p) } rest :=
    fun rest => run_cons_worker s _ i _ rest hd hw rfl
  have e2 : ∀ rest, run { s with g := writeCout s.g (parseRecord p)
                                 workers := s.workers.set i (WorkerPC.parseLog p) }
        (Tid.worker i :: rest) =
      run { s with g := writeCout s.g (parseRecord p)
                   workers := (s.workers.set i
                     (WorkerPC.parseLogStore p (writeCout s.g (parseRecord p)).logFile.length)) }
        rest :=
    fun rest => run_cons_worker _ _ i _ rest hd (hself _)
      (by simp only [processPacketsStep, setWorker, List.set_set])
  have e3 : ∀ rest, run { s with g := writeCout s.g (parseRecord p)
                                 workers := (s.workers.set i
                     (WorkerPC.parseLogStore p (writeCout s.g (parseRecord p)).logFile.length)) }
        (Tid.worker i :: rest) =
      run { s with g := parsePacket p s.g
                   workers := s.workers.set i (WorkerPC.find p) } rest :=
    fun rest => run_cons_worker _ _ i _ rest hd (hself _)
      (by simp only [processPacketsStep, setWorker, List.set_set, parsePacket, storeLog_length])
  have e7 : ∀ (g : Globals) (r : String) (rest : List Tid),
      run { s with g := g, workers := s.workers.set i (WorkerPC.routeCout p r) }
        (Tid.worker i :: Tid.worker i :: Tid.worker i :: rest) =
      run { s with g := writeLog (writeCout g r) r
                   workers := s.workers.set i WorkerPC.lock } rest := by
    intro g r rest
    have a1 : run { s with g := g, workers := s.workers.set i (WorkerPC.routeCout p r) }
          (Tid.worker i :: Tid.worker i :: Tid.worker i :: rest) =
        run { s with g := writeCout g r, workers := s.workers.set i (WorkerPC.routeLog p r) }
          (Tid.worker i :: Tid.worker i :: rest) :=
      run_cons_worker _ _ i _ _ hd (hself _)
        (by simp only [processPacketsStep, setWorker, List.set_set])
    have a2 : run { s with g := writeCout g r, workers := s.workers.set i (WorkerPC.routeLog p r) }
          (Tid.worker i :: Tid.worker i :: rest) =
        run { s with g := writeCout g r
                     workers := (s.workers.set i
                       (WorkerPC.routeLogStore p r (writeCout g r).logFile.length)) }
          (Tid.worker i :: rest) :=
      run_cons_worker _ _ i _ _ hd (hself _)
        (by simp only [processPacketsStep, setWorker, List.set_set])
    have a3 : run { s with g := writeCout g r
                           workers := (s.workers.set i
                       (WorkerPC.routeLogStore p r (writeCout g r).logFile.length)) }
          (Tid.worker i :: rest) =
        run { s with g := writeLog (writeCout g r) r
                     workers := s.workers.set i WorkerPC.lock } rest :=
      run_cons_worker _ _ i _ _ hd (hself _)
        (by simp only [processPacketsStep, setWorker, List.set_set, storeLog_length])
    rw [a1, a2, a3]
  by_cases hf : (find s.g.routingTable p.destIP).isSome = true
  · have e4 : ∀ rest, run { s with g := parsePacket p s.g
                                   workers := s.workers.set i (WorkerPC.find p) }
          (Tid.worker i :: rest) =
        run { s with g := parsePacket p s.g
                     workers := s.workers.set i (WorkerPC.index p) } rest :=
      fun rest => run_cons_worker _ _ i _ rest hd (hself _)
        (by simp only [processPacketsStep, setWorker, List.set_set, hrt, hf, if_true])
    have e5 : ∀ rest, run { s with g := parsePacket p s.g
                                   workers := s.workers.set i (WorkerPC.index p) }
          (Tid.worker i :: rest) =
        run { s with
              g := { parsePacket p s.g with
                routingTable := (index s.g.routingTable p.destIP).2 }
              workers := s.workers.set i (WorkerPC.routeCout p
                (routeHit p (index s.g.routingTable p.destIP).1)) } rest :=
      fun rest => run_cons_worker _ _ i _ rest hd (hself _)
        (by simp only [processPacketsStep, setWorker, List.set_set, hrt])
    rw [if_pos hf]
    simp only [steps, List.replicate]
    rw [e1, e2, e3, e4, e5, e7]
    simp only [run, routePacket, hrt, hf, if_true]
  · have e4 : ∀ rest, run { s with g := parsePacket p s.g
                                   workers := s.workers.set i (WorkerPC.find p) }
          (Tid.worker i :: rest) =
        run { s with g := parsePacket p s.g
                     workers := s.workers.set i (WorkerPC.routeCout p (routeMiss p)) } rest :=
      fun rest => run_cons_worker _ _ i _ rest hd (hself _)
        (by simp only [processPacketsStep, setWorker, List.set_set, hrt, hf, if_false,
          Bool.false_eq_true])
    rw [if_neg hf]
    simp only [steps, List.replicate]
    rw [e1, e2, e3, e4, e7]
    simp only [run, routePacket, hrt, hf, if_false, Bool.false_eq_true]

theorem assign_assign (t : RoutingTable) (d a b : String) :
    assign (assign t d a) d b = assign t d b := by
  induction t with
  | nil => simp [assign]
  | cons e t ih =>
    obtain ⟨k, v⟩ := e
    simp only [assign]
    split
    · rename_i h; simp [assign, h]
    · rename_i h; simp [assign, h, ih]

theorem assign_of_hit (t : RoutingTable) (d v : String) (h : find t d = some v) :
    assign t d v = t := by
  induction t with
  | nil => simp [find] at h
  | cons e t ih =>
    obtain ⟨k, w⟩ := e
    simp only [find] at h
    simp only [assign]
    split
    · rename_i hk
      rw [if_pos hk] at h
      cases h
      rfl
    · rename_i hk
      rw [if_neg hk] at h
      rw [ih h]

/-- The two steps of `routingTable[destIP] = router`, `operator[]` and then
the assignment, give together the table `assign` gives. -/
theorem assign_after_index (t : RoutingTable) (d r : String) :
    assign (index t d).2 d r = assign t d r := by
  unfold index
  split
  · rfl
  · exact assign_assign t d "" r

theorem run_cons_driver (s s1 : State) (rest : List Tid)
    (hd : s.driver ≠ DriverPC.exited) (h1 : mainStep s = some s1) :
    run s (Tid.driver :: rest) = run s1 rest := by
  simp only [run, step]
  rw [if_neg hd, h1]

theorem run_updCout (g : Globals) (m : Option Tid) (ws : List WorkerPC) (dq : List Packet)
    (k : Fin 5) (rest : List Tid) :
    run ⟨g, m, ws, DriverPC.updCout k, dq⟩ (Tid.driver :: rest) =
      run ⟨writeCout g (updPiece k), m, ws,
        nextInsertion k DriverPC.updCout (DriverPC.updLog 0), dq⟩ rest :=
  run_cons_driver _ _ rest (by simp) rfl

theorem run_updLog (g : Globals) (m : Option Tid) (ws : List WorkerPC) (dq : List Packet)
    (k : Fin 5) (rest : List Tid) :
    run ⟨g, m, ws, DriverPC.updLog k, dq⟩ (Tid.driver :: Tid.driver :: rest) =
      run ⟨writeLog g (updPiece k), m, ws,
        nextInsertion k DriverPC.updLog DriverPC.updUnlock, dq⟩ rest := by
  rw [run_cons_driver ⟨g, m, ws, DriverPC.updLog k, dq⟩
    ⟨g, m, ws, DriverPC.updLogStore k g.logFile.length, dq⟩ _ (by simp) rfl]
  exact run_cons_driver _ _ rest (by simp) (by simp only [mainStep, storeLog_length])

/-- The main thread running `updateRoutingTable` alone (19 steps from the
acquisition of the free mutex to its release) changes the global variables
as the function does. -/
theorem driver_updates_like_function (s : State) (hd : s.driver = DriverPC.sleep1)
    (hm : s.packetQueueMutex = none) :
    run s (steps Tid.driver 19) =
      some { s with
        g := updateRoutingTable updDest updRouter s.g
        driver := DriverPC.sleep2 } := by
  obtain ⟨g, m, ws, d, dq⟩ := s
  simp only at hd hm
  subst hd hm
  simp only [steps, List.replicate]
  rw [run_cons_driver ⟨g, none, ws, DriverPC.sleep1, dq⟩
    ⟨g, some Tid.driver, ws, DriverPC.index, dq⟩ _ (by simp) rfl]
  rw [run_cons_driver ⟨g, some Tid.driver, ws, DriverPC.index, dq⟩
    ⟨{ g with routingTable := (index g.routingTable updDest).2 }, some Tid.driver, ws,
      DriverPC.store, dq⟩ _ (by simp) rfl]
  rw [run_cons_driver
    ⟨{ g with routingTable := (index g.routingTable updDest).2 }, some Tid.driver, ws,
      DriverPC.store, dq⟩
    ⟨{ g with routingTable := assign g.routingTable updDest updRouter }, some Tid.driver, ws,
      DriverPC.updCout 0, dq⟩ _ (by simp)
    (by simp only [mainStep, assign_after_index])]
  rw [run_updCout]
  have c1 : nextInsertion 0 DriverPC.updCout (DriverPC.updLog 0) = DriverPC.updCout 1 := rfl
  rw [c1, run_updCout]
  have c2 : nextInsertion 1 DriverPC.updCout (DriverPC.updLog 0) = DriverPC.updCout 2 := rfl
  rw [c2, run_updCout]
  have c3 : nextInsertion 2 DriverPC.updCout (DriverPC.updLog 0) = DriverPC.updCout 3 := rfl
  rw [c3, run_updCout]
  have c4 : nextInsertion 3 DriverPC.updCout (DriverPC.updLog 0) = DriverPC.updCout 4 := rfl
  rw [c4, run_updCout]
  have c5 : nextInsertion 4 DriverPC.updCout (DriverPC.updLog 0) = DriverPC.updLog 0 := rfl
  rw [c5, run_updLog]
  have l1 : nextInsertion 0 DriverPC.updLog DriverPC.updUnlock = DriverPC.updLog 1 := rfl
  rw [l1, run_updLog]
  have l2 : nextInsertion 1 DriverPC.updLog DriverPC.updUnlock = DriverPC.updLog 2 := rfl
  rw [l2, run_updLog]
  have l3 : nextInsertion 2 DriverPC.updLog DriverPC.updUnlock = DriverPC.updLog 3 := rfl
  rw [l3, run_updLog]
  have l4 : nextInsertion 3 DriverPC.updLog DriverPC.updUnlock = DriverPC.updLog 4 := rfl
  rw [l4, run_updLog]
  have l5 : nextInsertion 4 DriverPC.updLog DriverPC.updUnlock = DriverPC.updUnlock := rfl
  rw [l5]
  simp only [run, step, mainStep]
  rfl

/-! ## Properties of every run -/

theorem flatMap_eq_nil_of_forall {α : Type} (f : WorkerPC → List α) (ws : List WorkerPC)
    (h : ∀ w ∈ ws, f w = []) : ws.flatMap f = [] := by
  induction ws with
  | nil => rfl
  | cons a t ih =>
    rw [List.flatMap_cons, h a (List.mem_cons_self _ _),
      ih (fun w hw => h w (List.mem_cons_of_mem _ hw))]
    rfl

theorem parts_of_not_processing (w : WorkerPC) (h : w.processing = false) :
    w.held = [] ∧ w.coutPart = [] := by
  cases w <;> simp [WorkerPC.processing, WorkerPC.held] at h <;>
    simp [WorkerPC.held, WorkerPC.coutPart]

/-- C2: in every state of every run, with any number of workers and any list
of packets enqueued, the packets handed to workers so far together with the
packets still queued are exactly the packets enqueued (as multisets); hence
no packet is handed out more often than it was enqueued, the packets in the
hands of workers are among those handed out, and once the queue is empty the
packets handed out are exactly the packets enqueued. -/
theorem C2_no_loss_no_duplication (n : Nat) (opened : Bool) (packets : List Packet)
    (sched : List Tid) (s : State) (h : run (initState n opened packets) sched = some s) :
    (↑s.dequeued + ↑s.g.packetQueue : Multiset Packet) = ↑packets ∧
    (∀ p, s.dequeued.count p ≤ packets.count p) ∧
    (↑(s.workers.flatMap WorkerPC.held) : Multiset Packet) ≤ ↑s.dequeued ∧
    (s.g.packetQueue = [] → (↑s.dequeued : Multiset Packet) = ↑packets) := by
  obtain ⟨hI, D, hL⟩ := invs_run n opened packets sched s h
  have hperm := hI.conserve
  refine ⟨?_, ?_, ?_, ?_⟩
  · rw [Multiset.coe_add, Multiset.coe_eq_coe]
    exact hperm
  · intro p
    rw [← hperm.count_eq, List.count_append]
    omega
  · rw [← hL.held]
    exact Multiset.le_add_left _ _
  · intro hq
    rw [hq, List.append_nil] at hperm
    rw [Multiset.coe_eq_coe]
    exact hperm

/-- C2 on a run with two workers: after each has dequeued one packet, the
packets of priority 5 and 3 are handed out and, with the two queued ones,
make up the four sample packets. -/
theorem C2_witness_two_workers :
    (stateAfter 2 true samplePackets twoWorkerSchedule).dequeued.map Packet.priority = [5, 3] ∧
    (stateAfter 2 true samplePackets twoWorkerSchedule).g.packetQueue.map Packet.priority
      = [2, 1] ∧
    (↑(stateAfter 2 true samplePackets twoWorkerSchedule).dequeued +
      ↑(stateAfter 2 true samplePackets twoWorkerSchedule).g.packetQueue : Multiset Packet)
      = ↑samplePackets :=
  ⟨by decide, by decide,
   (C2_no_loss_no_duplication 2 true samplePackets twoWorkerSchedule
      (stateAfter 2 true samplePackets twoWorkerSchedule) (by decide)).1⟩

/-- C3, failing run: after `raceSchedule` worker 0 stands before
`routingTable.find` (main.cpp:59) without the mutex while the main thread
holds the mutex and stands before `routingTable[destIP] = router`
(main.cpp:98); both the read and the write can be the next step. -/
theorem C3_table_read_without_mutex :
    (stateAfter 2 true samplePackets raceSchedule).workers[0]? =
      some (WorkerPC.find ⟨"192.168.1.200", "10.0.0.5", "ICMP", 100, 5⟩) ∧
    (WorkerPC.find ⟨"192.168.1.200", "10.0.0.5", "ICMP", 100, 5⟩).accessesTable = true ∧
    (WorkerPC.find ⟨"192.168.1.200", "10.0.0.5", "ICMP", 100, 5⟩).holdsMutex = false ∧
    (stateAfter 2 true samplePackets raceSchedule).packetQueueMutex = some Tid.driver ∧
    (stateAfter 2 true samplePackets raceSchedule).driver = DriverPC.index ∧
    DriverPC.index.accessesTable = true ∧
    run (initState 2 true samplePackets) raceSchedule =
      some (stateAfter 2 true samplePackets raceSchedule) ∧
    (step (stateAfter 2 true samplePackets raceSchedule) (Tid.worker 0)).isSome = true ∧
    (step (stateAfter 2 true samplePackets raceSchedule) Tid.driver).isSome = true := by
  have reached : run (initState 2 true samplePackets) raceSchedule =
      some (stateAfter 2 true samplePackets raceSchedule) := by decide
  exact ⟨by decide, by decide, by decide, by decide, by decide, by decide, reached,
    by decide, by decide⟩

/-- The routing table in every state of every run: it is the table of the
main thread's program counter (the seed, the seed with the new destination
mapped to the empty string, or the updated table), and the three seeded
destinations of the sample packets resolve to their routers throughout. -/
theorem table_in_every_state (n : Nat) (opened : Bool) (packets : List Packet)
    (sched : List Tid) (s : State) (h : run (initState n opened packets) sched = some s) :
    s.g.routingTable = s.driver.tableOf ∧
    find s.g.routingTable "192.168.1.1" = some "Router A" ∧
    find s.g.routingTable "192.168.1.2" = some "Router B" ∧
    find s.g.routingTable "10.0.0.1" = some "Router C" := by
  have ht := (inv_run n opened packets sched s h).table
  rw [ht]
  have h3 : ∀ t : RoutingTable, t = seedTable ∨ t = insertedTable ∨ t = updatedTable →
      find t "192.168.1.1" = some "Router A" ∧ find t "192.168.1.2" = some "Router B" ∧
      find t "10.0.0.1" = some "Router C" := by
    intro t ht
    rcases ht with rfl | rfl | rfl <;> decide
  have hc : s.driver.tableOf = seedTable ∨ s.driver.tableOf = insertedTable ∨
      s.driver.tableOf = updatedTable := by
    cases s.driver <;> simp [DriverPC.tableOf]
  exact ⟨rfl, h3 _ hc⟩

/-- C9 as stated fails, in three runs whose final state has the queue empty,
both workers idle and the update done.  In `earlyCloseSchedule` the main
thread closes the log file before a worker writes: the file holds the header
and the update only.  In `lostRecordSchedule` the file is open, but two
insertions overlapped and the parse record of the first packet is not in the
file, while its route record is.  In `splitSchedule` a parse record stands on standard output between
the first and the second text of the update record, so that the five texts
of the update record do not stand in a row. -/
theorem C9_log_counterexample :
    run (initState 2 true samplePackets) earlyCloseSchedule =
      some (stateAfter 2 true samplePackets earlyCloseSchedule) ∧
    (stateAfter 2 true samplePackets earlyCloseSchedule).g.packetQueue = [] ∧
    (∀ w ∈ (stateAfter 2 true samplePackets earlyCloseSchedule).workers,
      w.processing = false) ∧
    (stateAfter 2 true samplePackets earlyCloseSchedule).driver.updateDone = true ∧
    (stateAfter 2 true samplePackets earlyCloseSchedule).g.logFile =
      ["packet log\n", "==========\n", "updated routing table: ", "10.0.0.5", " -> ",
        "Router E", "\n"] ∧
    (∀ p ∈ samplePackets,
      parseRecord p ∉ (stateAfter 2 true samplePackets earlyCloseSchedule).g.logFile) ∧
    run (initState 2 true samplePackets) lostRecordSchedule =
      some (stateAfter 2 true samplePackets lostRecordSchedule) ∧
    (stateAfter 2 true samplePackets lostRecordSchedule).g.packetQueue = [] ∧
    (∀ w ∈ (stateAfter 2 true samplePackets lostRecordSchedule).workers,
      w.processing = false) ∧
    (stateAfter 2 true samplePackets lostRecordSchedule).driver.updateDone = true ∧
    (stateAfter 2 true samplePackets lostRecordSchedule).g.logOpen = true ∧
    parseRecord ⟨"192.168.1.200", "10.0.0.5", "ICMP", 100, 5⟩ ∉
      (stateAfter 2 true samplePackets lostRecordSchedule).g.logFile ∧
    routeMiss ⟨"192.168.1.200", "10.0.0.5", "ICMP", 100, 5⟩ ∈
      (stateAfter 2 true samplePackets lostRecordSchedule).g.logFile ∧
    run (initState 2 true samplePackets) splitSchedule =
      some (stateAfter 2 true samplePackets splitSchedule) ∧
    (stateAfter 2 true samplePackets splitSchedule).g.packetQueue = [] ∧
    (∀ w ∈ (stateAfter 2 true samplePackets splitSchedule).workers, w.processing = false) ∧
    (stateAfter 2 true samplePackets splitSchedule).driver.updateDone = true ∧
    (stateAfter 2 true samplePackets splitSchedule).g.cout.take 3 =
      ["updated routing table: ",
       "parsing packet:\nsource ip: 192.168.1.200\ndestination ip: 10.0.0.5\n" ++
        "protocol: ICMP\nsize: 100 bytes\npriority: 5\n",
       "10.0.0.5"] ∧
    ¬ (updatePieces "10.0.0.5" "Router E" <:+:
        (stateAfter 2 true samplePackets splitSchedule).g.cout) := by
  have early : run (initState 2 true samplePackets) earlyCloseSchedule =
      some (stateAfter 2 true samplePackets earlyCloseSchedule) := by decide
  have lost : run (initState 2 true samplePackets) lostRecordSchedule =
      some (stateAfter 2 true samplePackets lostRecordSchedule) := by decide
  have split : run (initState 2 true samplePackets) splitSchedule =
      some (stateAfter 2 true samplePackets splitSchedule) := by decide
  refine ⟨early, by decide, by decide, by decide, by decide, by decide, lost, ?_⟩
  refine ⟨by decide, by decide, by decide, by decide, by decide, by decide, split, ?_⟩
  exact ⟨by decide, by decide, by decide, by decide, by decide⟩

/-- C9, amended: in the seeded run with any number of workers, in every state
where the queue is empty, no worker has a packet in hand and
`updateRoutingTable` has returned, standard output holds exactly: for each of
the four sample packets its parse record and one route record, the parse
record before the route record; the five texts of the update record, each
once and in their order; and the closing message once `main` has written it.
Nothing is stated about the log file. -/
theorem C9_stdout_complete (n : Nat) (opened : Bool) (sched : List Tid) (s : State)
    (h : run (initState n opened samplePackets) sched = some s)
    (hq : s.g.packetQueue = [])
    (hidle : ∀ w ∈ s.workers, w.processing = false)
    (hupd : s.driver.updateDone = true) :
    ∃ D : List (Packet × String),
      (D.map Prod.fst).Perm samplePackets ∧ D.length = 4 ∧
      (∀ d ∈ D, RouteRecordOf d.1 d.2 ∧ [parseRecord d.1, d.2].Sublist s.g.cout) ∧
      ["updated routing table: ", "10.0.0.5", " -> ", "Router E", "\n"].Sublist s.g.cout ∧
      s.g.cout.Perm (D.flatMap (fun d => [parseRecord d.1, d.2]) ++
        ["updated routing table: ", "10.0.0.5", " -> ", "Router E", "\n"] ++
        (if s.driver = DriverPC.ret ∨ s.driver = DriverPC.exited then [closingMessage]
          else [])) := by
  obtain ⟨hI, D, hL⟩ := invs_run n opened samplePackets sched s h
  have hheld := flatMap_eq_nil_of_forall WorkerPC.held s.workers
    (fun w hw => (parts_of_not_processing w (hidle w hw)).1)
  have hcp := flatMap_eq_nil_of_forall WorkerPC.coutPart s.workers
    (fun w hw => (parts_of_not_processing w (hidle w hw)).2)
  have h1 := hL.held
  rw [hheld, Multiset.coe_nil, add_zero, Multiset.coe_eq_coe] at h1
  have h2 := hI.conserve
  rw [hq, List.append_nil] at h2
  have hperm : (D.map Prod.fst).Perm samplePackets := h1.trans h2
  have hcout : s.g.cout.Perm (D.flatMap recordsOf ++ s.driver.coutPart) := by
    have := hL.cout
    rw [hcp, Multiset.coe_nil, add_zero, Multiset.coe_add, Multiset.coe_eq_coe] at this
    exact this.symm
  have hdr : s.driver.coutPart =
      ["updated routing table: ", "10.0.0.5", " -> ", "Router E", "\n"] ++
      (if s.driver = DriverPC.ret ∨ s.driver = DriverPC.exited then [closingMessage]
        else []) := by
    cases hd : s.driver <;> rw [hd] at hupd <;> simp [DriverPC.updateDone] at hupd <;>
      simp [DriverPC.coutPart, updatePieces, updDest, updRouter]
  have hsub : ["updated routing table: ", "10.0.0.5", " -> ", "Router E", "\n"].Sublist
      s.g.cout := by
    refine List.Sublist.trans ?_ hL.driverPart
    rw [hdr]
    exact List.sublist_append_left _ _
  refine ⟨D, hperm, ?_, fun d hd => hL.order d hd, hsub, ?_⟩
  · have := hperm.length_eq
    rw [List.length_map] at this
    rw [this]
    rfl
  · rw [hdr, ← List.append_assoc] at hcout
    exact hcout

/-- C9 on the run `serialSchedule` with two workers: the queue is empty, the
workers are idle and the update is done; standard output has thirteen
entries: four parse records, four route records and the five texts of the
update record. -/
theorem C9_witness_serial_run :
    (stateAfter 2 true samplePackets serialSchedule).g.cout.length = 13 ∧
    ∃ D : List (Packet × String),
      (D.map Prod.fst).Perm samplePackets ∧ D.length = 4 ∧
      (∀ d ∈ D, RouteRecordOf d.1 d.2 ∧
        [parseRecord d.1, d.2].Sublist (stateAfter 2 true samplePackets serialSchedule).g.cout) ∧
      ["updated routing table: ", "10.0.0.5", " -> ", "Router E", "\n"].Sublist
        (stateAfter 2 true samplePackets serialSchedule).g.cout ∧
      (stateAfter 2 true samplePackets serialSchedule).g.cout.Perm
        (D.flatMap (fun d => [parseRecord d.1, d.2]) ++
          ["updated routing table: ", "10.0.0.5", " -> ", "Router E", "\n"] ++
          (if (stateAfter 2 true samplePackets serialSchedule).driver = DriverPC.ret ∨
              (stateAfter 2 true samplePackets serialSchedule).driver = DriverPC.exited
            then [closingMessage] else [])) :=
  ⟨by decide,
   C9_stdout_complete 2 true serialSchedule (stateAfter 2 true samplePackets serialSchedule)
     (by decide) (by decide) (by decide) (by decide)⟩

/-- C10 as stated fails.  In the complete run `completeSchedule`, where no
two accesses to the log file overlap, the file begins with the header and
standard output does not, and standard output ends with the closing message,
which the file does not hold.  When the file could not be opened it stays
empty.  In the run `overlapSchedule` two workers write their parse records
to standard output, and the file holds only one of them. -/
theorem C10_stdout_differs_from_file :
    run (initState 2 true samplePackets) completeSchedule =
      some (stateAfter 2 true samplePackets completeSchedule) ∧
    (stateAfter 2 true samplePackets completeSchedule).driver = DriverPC.exited ∧
    (stateAfter 2 true samplePackets completeSchedule).g.cout ≠
      (stateAfter 2 true samplePackets completeSchedule).g.logFile ∧
    (stateAfter 2 true samplePackets completeSchedule).g.logFile.take 2 =
      ["packet log\n", "==========\n"] ∧
    (stateAfter 2 true samplePackets completeSchedule).g.cout.take 2 =
      ["parsing packet:\nsource ip: 192.168.1.200\ndestination ip: 10.0.0.5\n" ++
        "protocol: ICMP\nsize: 100 bytes\npriority: 5\n",
       "routing packet from 192.168.1.200 to 10.0.0.5\n" ++
        "no route found for destination 10.0.0.5\n"] ∧
    closingMessage ∈ (stateAfter 2 true samplePackets completeSchedule).g.cout ∧
    closingMessage ∉ (stateAfter 2 true samplePackets completeSchedule).g.logFile ∧
    (stateAfter 2 false samplePackets completeSchedule).g.logFile = [] ∧
    (stateAfter 2 false samplePackets completeSchedule).g.cout.length = 14 ∧
    run (initState 2 true samplePackets) overlapSchedule =
      some (stateAfter 2 true samplePackets overlapSchedule) ∧
    (stateAfter 2 true samplePackets overlapSchedule).g.cout =
      [parseRecord ⟨"192.168.1.200", "10.0.0.5", "ICMP", 100, 5⟩,
       parseRecord ⟨"192.168.1.101", "10.0.0.1", "UDP", 300, 3⟩] ∧
    (stateAfter 2 true samplePackets overlapSchedule).g.logFile =
      ["packet log\n", "==========\n",
       parseRecord ⟨"192.168.1.101", "10.0.0.1", "UDP", 300, 3⟩] := by
  have complete : run (initState 2 true samplePackets) completeSchedule =
      some (stateAfter 2 true samplePackets completeSchedule) := by decide
  have overlap : run (initState 2 true samplePackets) overlapSchedule =
      some (stateAfter 2 true samplePackets overlapSchedule) := by decide
  refine ⟨complete, by decide, by decide, by decide, by decide, by decide, by decide, ?_⟩
  exact ⟨by decide, by decide, overlap, by decide, by decide⟩

theorem call_writes_both (c : Call) (g : Globals) :
    ∃ texts : List String,
      (c.exec g).cout = g.cout ++ texts ∧
      (c.exec g).logFile = (if g.logOpen then g.logFile ++ texts else g.logFile) ∧
      (c.exec g).logOpen = g.logOpen := by
  cases c with
  | parsePacket p =>
    refine ⟨[parseRecord p], ?_, ?_, ?_⟩
    · simp only [Call.exec, parsePacket, writeLog_cout, writeCout]
    · simp only [Call.exec, parsePacket, writeLog_logFile, writeCout]
    · simp only [Call.exec, parsePacket, writeLog_logOpen, writeCout]
  | routePacket p =>
    refine ⟨[routeRecord p (find g.routingTable p.destIP)], ?_, ?_, ?_⟩
    · exact routePacket_cout p g
    · exact routePacket_logFile p g
    · simp only [Call.exec, routePacket]
      split <;> simp only [writeLog_logOpen, writeCout]
  | updateRoutingTable d r =>
    refine ⟨updatePieces d r, ?_, ?_, ?_⟩
    · simp only [Call.exec, updateRoutingTable, foldl_writeLog, foldl_writeCout]
      split <;> rfl
    · simp only [Call.exec, updateRoutingTable, foldl_writeLog, foldl_writeCout]
      cases g.logOpen <;> rfl
    · simp only [Call.exec, updateRoutingTable, foldl_writeLog, foldl_writeCout]
      split <;> rfl

theorem execCalls_streams (calls : List Call) : ∀ (g : Globals) (pre : List String),
    g.logFile = (if g.logOpen then pre ++ g.cout else []) →
    (execCalls calls g).logFile =
      (if g.logOpen then pre ++ (execCalls calls g).cout else []) := by
  induction calls with
  | nil => intro g pre h; exact h
  | cons c calls ih =>
    intro g pre h
    obtain ⟨texts, h1, h2, h3⟩ := call_writes_both c g
    have := ih (c.exec g) pre (by
      rw [h3, h2, h1, h]
      cases g.logOpen <;> simp)
    rw [h3] at this
    exact this

/-- C10, amended: the two header lines are written to the log file only, and
only when the file could be opened.  Each of `parsePacket`, `routePacket` and
`updateRoutingTable` inserts the same texts, in the same order, into
standard output and then into the log file when it is open.  Hence after
calls of these functions that run one after the other, from the state in
which `main` starts the workers, the log file - if it could be opened -
holds the header followed by exactly what standard output holds. -/
theorem C10_serial_calls_write_both_streams (opened : Bool) (packets : List Packet)
    (calls : List Call) :
    (mainPrologue opened packets).cout = [] ∧
    (mainPrologue opened packets).logFile =
      (if opened then ["packet log\n", "==========\n"] else []) ∧
    (∀ (c : Call) (g : Globals), ∃ texts : List String,
      (c.exec g).cout = g.cout ++ texts ∧
      (c.exec g).logFile = (if g.logOpen then g.logFile ++ texts else g.logFile) ∧
      (c.exec g).logOpen = g.logOpen) ∧
    (execCalls calls (mainPrologue opened packets)).logFile =
      (if opened then
        ["packet log\n", "==========\n"] ++ (execCalls calls (mainPrologue opened packets)).cout
       else []) := by
  refine ⟨mainPrologue_cout opened packets, mainPrologue_logFile opened packets,
    call_writes_both, ?_⟩
  have := execCalls_streams calls (mainPrologue opened packets) header (by
    rw [mainPrologue_logFile, mainPrologue_logOpen, mainPrologue_cout]
    cases opened <;> rfl)
  rw [mainPrologue_logOpen] at this
  exact this

/-- C10 on the calls of the run `serialSchedule`: the four packets are parsed
and routed in the order of their priorities and the table is updated; the
run leaves on the two streams what the calls leave, thirteen entries on
standard output and the header followed by the same entries in the file. -/
theorem C10_witness_serial_calls :
    (stateAfter 2 true samplePackets serialSchedule).g.cout =
      (execCalls
        [Call.parsePacket ⟨"192.168.1.200", "10.0.0.5", "ICMP", 100, 5⟩,
         Call.routePacket ⟨"192.168.1.200", "10.0.0.5", "ICMP", 100, 5⟩,
         Call.parsePacket ⟨"192.168.1.101", "10.0.0.1", "UDP", 300, 3⟩,
         Call.routePacket ⟨"192.168.1.101", "10.0.0.1", "UDP", 300, 3⟩,
         Call.parsePacket ⟨"192.168.1.100", "192.168.1.1", "TCP", 500, 2⟩,
         Call.routePacket ⟨"192.168.1.100", "192.168.1.1", "TCP", 500, 2⟩,
         Call.parsePacket ⟨"10.0.0.2", "192.168.1.2", "TCP", 800, 1⟩,
         Call.routePacket ⟨"10.0.0.2", "192.168.1.2", "TCP", 800, 1⟩,
         Call.updateRoutingTable "10.0.0.5" "Router E"]
        (mainPrologue true samplePackets)).cout ∧
    (stateAfter 2 true samplePackets serialSchedule).g.logFile =
      ["packet log\n", "==========\n"] ++ (stateAfter 2 true samplePackets serialSchedule).g.cout ∧
    (execCalls
        [Call.parsePacket ⟨"192.168.1.200", "10.0.0.5", "ICMP", 100, 5⟩,
         Call.routePacket ⟨"192.168.1.200", "10.0.0.5", "ICMP", 100, 5⟩,
         Call.parsePacket ⟨"192.168.1.101", "10.0.0.1", "UDP", 300, 3⟩,
         Call.routePacket ⟨"192.168.1.101", "10.0.0.1", "UDP", 300, 3⟩,
         Call.parsePacket ⟨"192.168.1.100", "192.168.1.1", "TCP", 500, 2⟩,
         Call.routePacket ⟨"192.168.1.100", "192.168.1.1", "TCP", 500, 2⟩,
         Call.parsePacket ⟨"10.0.0.2", "192.168.1.2", "TCP", 800, 1⟩,
         Call.routePacket ⟨"10.0.0.2", "192.168.1.2", "TCP", 800, 1⟩,
         Call.updateRoutingTable "10.0.0.5" "Router E"]
        (mainPrologue true samplePackets)).logFile =
      ["packet log\n", "==========\n"] ++
      (execCalls
        [Call.parsePacket ⟨"192.168.1.200", "10.0.0.5", "ICMP", 100, 5⟩,
         Call.routePacket ⟨"192.168.1.200", "10.0.0.5", "ICMP", 100, 5⟩,
         Call.parsePacket ⟨"192.168.1.101", "10.0.0.1", "UDP", 300, 3⟩,
         Call.routePacket ⟨"192.168.1.101", "10.0.0.1", "UDP", 300, 3⟩,
         Call.parsePacket ⟨"192.168.1.100", "192.168.1.1", "TCP", 500, 2⟩,
         Call.routePacket ⟨"192.168.1.100", "192.168.1.1", "TCP", 500, 2⟩,
         Call.parsePacket ⟨"10.0.0.2", "192.168.1.2", "TCP", 800, 1⟩,
         Call.routePacket ⟨"10.0.0.2", "192.168.1.2", "TCP", 800, 1⟩,
         Call.updateRoutingTable "10.0.0.5" "Router E"]
        (mainPrologue true samplePackets)).cout :=
  ⟨by decide, by decide,
   (C10_serial_calls_write_both_streams true samplePackets _).2.2.2⟩


end PacketSim
